import Mathlib

/-!
Shallow embedding of `src/dist/es6/aurelia-task-queue.js`, a two-tier
deferred-execution scheduler: a micro-task queue drained in place with
periodic compaction, a (macro) task queue drained by swap-and-replace, a
timer-based flush scheduler, and an error sink `onError`.

Tasks are opaque zero-argument callables in the source; the model
identifies a task by a `Nat` id and describes the observable behaviour of
its `call()` method through an environment `Env : Nat → TaskSpec`.
JavaScript arrays become `List Nat`, in-place mutation becomes explicit
state passing on the `TaskQueue` structure, and the host-scheduler side
effects (`requestFlush…()` calls, `task.onError(...)` calls, asynchronous
re-raises) are recorded in instrumentation fields of the state.
-/

set_option maxHeartbeats 1000000
set_option maxRecDepth 8000

/-- Model of an opaque zero-argument callable handed to the queue.  An
environment maps each task id to its behaviour when `task.call()` runs:
`queuesMicroTask` are the ids it passes to `queueMicroTask`, in order;
`queuesTask` the ids it passes to `queueTask`; `throws = some e` means the
body finally throws the error identified by `e`.  `hasOnError` models the
duck-typed test `'onError' in task` (line 38), and `onErrorQueuesMicroTask`
is what the handler `task.onError(error)` itself passes to `queueMicroTask`
when invoked. -/
structure TaskSpec where
  queuesMicroTask : List Nat := []
  queuesTask : List Nat := []
  throws : Option Nat := none
  hasOnError : Bool := false
  onErrorQueuesMicroTask : List Nat := []
deriving DecidableEq, Repr

/-- Behaviour environment: what each task id does when invoked. -/
abbrev Env := Nat → TaskSpec

/-- An asynchronous error escalation scheduled by `onError` (lines 40-44):
the re-raise is registered with the host either through `setImmediate` or
through a zero-delay `setTimeout`; it is never raised synchronously inside
the drain call. -/
inductive Escalation where
  | viaSetImmediate (error : Nat)
  | viaSetTimeoutZero (error : Nat)
deriving DecidableEq, Repr

/-- State of one `TaskQueue` instance (constructor, lines 52-59), plus
instrumentation recording the externally observable events of a run:
`requestFlush…Calls` count the invocations of the two flush schedulers,
`trace` lists the ids of the tasks invoked by `task.call()`, in order,
`handlerCalls` lists the synchronous `task.onError(error)` invocations as
`(error, task)` pairs, and `asyncRaises` lists the asynchronous
escalations scheduled by `onError`. -/
structure TaskQueue where
  microTaskQueue : List Nat := []
  microTaskQueueCapacity : Nat := 1024
  taskQueue : List Nat := []
  requestFlushMicroTaskQueueCalls : Nat := 0
  requestFlushTaskQueueCalls : Nat := 0
  trace : List Nat := []
  handlerCalls : List (Nat × Nat) := []
  asyncRaises : List Escalation := []
deriving DecidableEq, Repr

/-- The freshly constructed `TaskQueue` (lines 52-59): both queues empty,
capacity 1024, and no observable events yet. -/
def TaskQueue.init : TaskQueue := {}

namespace TaskQueue

/-- `queueMicroTask(task)` (lines 61-67): if the micro queue is empty, call
`requestFlushMicroTaskQueue()` (modelled by bumping its call counter), then
push the task. -/
def queueMicroTask (s : TaskQueue) (t : Nat) : TaskQueue :=
  let s1 :=
    if s.microTaskQueue.length < 1 then
      { s with requestFlushMicroTaskQueueCalls := s.requestFlushMicroTaskQueueCalls + 1 }
    else s
  { s1 with microTaskQueue := s1.microTaskQueue ++ [t] }

/-- `queueTask(task)` (lines 69-75): if the task queue is empty, call
`requestFlushTaskQueue()` (modelled by bumping its call counter), then push
the task. -/
def queueTask (s : TaskQueue) (t : Nat) : TaskQueue :=
  let s1 :=
    if s.taskQueue.length < 1 then
      { s with requestFlushTaskQueueCalls := s.requestFlushTaskQueueCalls + 1 }
    else s
  { s1 with taskQueue := s1.taskQueue ++ [t] }

end TaskQueue

/-- `onError(error, task)` (lines 37-45): if the task exposes an `onError`
member, invoke it synchronously with the error (recorded in `handlerCalls`,
followed by the enqueues the handler body performs); otherwise schedule an
asynchronous re-raise, through `setImmediate` when the host has it, else
through a zero-delay `setTimeout`. -/
def onError (hasSetImmediate : Bool) (env : Env) (s : TaskQueue) (error t : Nat) : TaskQueue :=
  if (env t).hasOnError then
    (env t).onErrorQueuesMicroTask.foldl TaskQueue.queueMicroTask
      { s with handlerCalls := s.handlerCalls ++ [(error, t)] }
  else if hasSetImmediate then
    { s with asyncRaises := s.asyncRaises ++ [.viaSetImmediate error] }
  else
    { s with asyncRaises := s.asyncRaises ++ [.viaSetTimeoutZero error] }

/-- One `task.call()` (lines 87 and 104): record the invocation in the trace
and perform the enqueues of the task body; whether the body then throws is
read off `(env t).throws` at the call sites. -/
def callTask (env : Env) (s : TaskQueue) (t : Nat) : TaskQueue :=
  let s1 := { s with trace := s.trace ++ [t] }
  let s2 := (env t).queuesMicroTask.foldl TaskQueue.queueMicroTask s1
  (env t).queuesTask.foldl TaskQueue.queueTask s2

/-- Result of a drain loop's try block: `ok` means the while loop exited
normally; `err s e t` means the task `t` threw the error `e` leaving state
`s` (the local variable `task` at the catch site holds the throwing task). -/
inductive FlushOutcome where
  | ok (s : TaskQueue)
  | err (s : TaskQueue) (error t : Nat)
deriving DecidableEq, Repr

/-- The try block of `flushTaskQueue` (lines 84-92): iterate the captured
queue by index, invoking each task in order; stop at the first throw.  The
captured array is never mutated after the swap (reentrant `queueTask` calls
push onto the fresh live queue), so it is traversed structurally. -/
def flushTaskQueueTry (env : Env) : List Nat → TaskQueue → FlushOutcome
  | [], s => .ok s
  | t :: rest, s =>
    let s1 := callTask env s t
    match (env t).throws with
    | some e => .err s1 e t
    | none => flushTaskQueueTry env rest s1

/-- `flushTaskQueue()` (lines 77-93): capture the live queue, replace it
with a fresh empty one (so reentrant `queueTask` calls land in the next
cycle), drain the captured queue, and hand the first thrown error together
with the throwing task to `onError`. -/
def flushTaskQueue (hasSetImmediate : Bool) (env : Env) (s : TaskQueue) : TaskQueue :=
  let queue := s.taskQueue
  let s1 := { s with taskQueue := [] }
  match flushTaskQueueTry env queue s1 with
  | .ok s2 => s2
  | .err s2 e t => onError hasSetImmediate env s2 e t

/-- The scan loop of the compaction branch (lines 115-118):
`for (scan = 0; scan < index; scan++) queue[scan] = queue[scan + index]`.
`n` counts the iterations still to run, so the call with `n = index` and
`scan = 0` is the whole loop.  A JavaScript read `queue[scan + index]` past
the end of the array yields `undefined`; every slot receiving such a value
lies at position `≥ queue.length - index` and is removed by the
`queue.length -= index` truncation that follows, so the model may read an
arbitrary default there (it reads `0`). -/
def shiftLoop (index : Nat) : Nat → Nat → List Nat → List Nat
  | 0, _, queue => queue
  | n + 1, scan, queue =>
    shiftLoop index n (scan + 1) (queue.set scan (queue.getD (scan + index) 0))

/-- The whole compaction step (lines 115-119): the scan loop followed by the
truncation `queue.length -= index`. -/
def compact (queue : List Nat) (index : Nat) : List Nat :=
  (shiftLoop index index 0 queue).take (queue.length - index)

/-- The try block of `flushMicroTaskQueue` (lines 101-122): the while loop,
with the queue length re-read from the live state on every iteration (so
tasks appended reentrantly during the drain are seen) and the compaction
step once `index` exceeds the capacity.  `fuel` bounds the number of loop
iterations; `none` means the loop was still running when the fuel ran out
(the source loop need not terminate, e.g. for a task that re-enqueues
itself forever), so the theorems only inspect runs returning `some`. -/
def flushMicroTaskQueueTry (env : Env) (capacity : Nat) :
    Nat → Nat → TaskQueue → Option FlushOutcome
  | 0, _, _ => none
  | fuel + 1, index, s =>
    if h : index < s.microTaskQueue.length then
      let t := s.microTaskQueue[index]
      let s1 := callTask env s t
      match (env t).throws with
      | some e => some (.err s1 e t)
      | none =>
        if index + 1 > capacity then
          flushMicroTaskQueueTry env capacity fuel 0
            { s1 with microTaskQueue := compact s1.microTaskQueue (index + 1) }
        else
          flushMicroTaskQueueTry env capacity fuel (index + 1) s1
    else some (.ok s)

/-- `flushMicroTaskQueue()` (lines 95-128): read the capacity, run the while
loop from index 0; if a task threw, hand the error and the task to
`onError`; in every case finish with the truncation `queue.length = 0`
(because the local `queue` aliases `this.microTaskQueue`, this empties the
live micro queue, discarding anything still in it). -/
def flushMicroTaskQueue (hasSetImmediate : Bool) (env : Env) (fuel : Nat)
    (s : TaskQueue) : Option TaskQueue :=
  match flushMicroTaskQueueTry env s.microTaskQueueCapacity fuel 0 s with
  | none => none
  | some (.ok s1) => some { s1 with microTaskQueue := [] }
  | some (.err s1 e t) =>
    some { onError hasSetImmediate env s1 e t with microTaskQueue := [] }

/-- State of one invocation of the `requestFlush` closure produced by
`makeRequestFlushFromTimer` (lines 16-35): whether the zero-delay timeout
and the 50ms interval handles are still live, and how many times the
`flush` callback has been invoked. -/
structure TimerState where
  timeoutLive : Bool
  intervalLive : Bool
  flushCalls : Nat
deriving DecidableEq, Repr

/-- The timer-based `requestFlush()` body (lines 22-26): arm both the
zero-delay `setTimeout` and the 50ms `setInterval`. -/
def requestFlushTimerArmed : TimerState := ⟨true, true, 0⟩

/-- `handleFlushTimer` (lines 27-33): whichever timer got here first clears
both handles and invokes `flush`. -/
def handleFlushTimer (s : TimerState) : TimerState := ⟨false, false, s.flushCalls + 1⟩

/-- A host timer tick: either timer may come due, in any order, but its
callback only runs while its handle has not been cleared; a tick of a
cancelled timer does nothing. -/
inductive TimerEvent where
  | timeoutDue
  | intervalDue
deriving DecidableEq, Repr

/-- Host delivery of one timer tick. -/
def timerStep (s : TimerState) : TimerEvent → TimerState
  | .timeoutDue => if s.timeoutLive then handleFlushTimer s else s
  | .intervalDue => if s.intervalLive then handleFlushTimer s else s

/-- Host delivery of a whole firing order (any interleaving of timeout and
interval ticks, the interval possibly ticking many times). -/
def runTimerEvents (s : TimerState) (evs : List TimerEvent) : TimerState :=
  evs.foldl timerStep s

/-- A task body that does nothing: no reentrant enqueues and no throw. -/
def pureSpec : TaskSpec := {}

/-- A task is pure when its body neither enqueues nor throws. -/
def PureTask (env : Env) (t : Nat) : Prop :=
  (env t).queuesMicroTask = [] ∧ (env t).queuesTask = [] ∧ (env t).throws = none

/-- The environment in which every task is a no-op. -/
def pureEnv : Env := fun _ => pureSpec

/-- Closed form of a micro drain over pure tasks (no reentrancy, no
throws): invoke the queue up to the compaction point, compact, and
continue; proved below to be exactly the invocation sequence that
`flushMicroTaskQueueTry` produces on such queues. -/
def pureTrace (c : Nat) (q : List Nat) : List Nat :=
  if q.length ≤ c + 1 then q
  else q.take (c + 1) ++ pureTrace c (compact q (c + 1))
termination_by q.length
decreasing_by simp only [compact, List.length_take]; omega

/-- A burst of `n` enqueues on the micro tier of a fresh `TaskQueue`:
`queueMicroTask` called with the task ids `0, …, n-1`, in that order, with
no intervening drain. -/
def microBurst (n : Nat) : TaskQueue :=
  (List.range n).foldl TaskQueue.queueMicroTask TaskQueue.init

/-- The tasks a drained (macro) queue segment enqueues through `queueTask`,
in order of execution. -/
def enqueuedTask (env : Env) : List Nat → List Nat
  | [] => []
  | t :: r => (env t).queuesTask ++ enqueuedTask env r

/-- Scenario environment for micro-tier reentrancy: task `0` enqueues the
fresh task `2050` through `queueMicroTask`; every other task (including
`2050` itself) is a no-op, and no task throws. -/
def envReentrantMicroTask : Env :=
  fun t => if t = 0 then { queuesMicroTask := [2050] } else pureSpec

/-- Scenario environment for macro-tier reentrancy: task `1` enqueues task
`5` through `queueTask`; every other task is a no-op, and no task throws. -/
def envReentrantTask : Env :=
  fun t => if t = 1 then { queuesTask := [5] } else pureSpec

/-- Scenario environment for failure isolation: task `1` throws error `7`
and has no `onError` member; every other task is a no-op. -/
def envThrowNoHandler : Env :=
  fun t => if t = 1 then { throws := some 7 } else pureSpec

/-- Scenario environment for the reentrant error handler: task `0` throws
error `7` and exposes an `onError` handler that calls `queueMicroTask`
with the fresh task `1`; every other task is a no-op. -/
def envHandlerRequeue : Env :=
  fun t =>
    if t = 0 then { throws := some 7, hasOnError := true, onErrorQueuesMicroTask := [1] }
    else pureSpec

/-! ### Characterization of the enqueue operations -/

theorem queueMicroTask_of_ne_nil {s : TaskQueue} (t : Nat) (h : s.microTaskQueue ≠ []) :
    s.queueMicroTask t = { s with microTaskQueue := s.microTaskQueue ++ [t] } := by
  simp [TaskQueue.queueMicroTask, Nat.lt_one_iff, List.length_eq_zero, h]

theorem queueMicroTask_of_nil {s : TaskQueue} (t : Nat) (h : s.microTaskQueue = []) :
    s.queueMicroTask t =
      { s with microTaskQueue := s.microTaskQueue ++ [t],
               requestFlushMicroTaskQueueCalls := s.requestFlushMicroTaskQueueCalls + 1 } := by
  simp [TaskQueue.queueMicroTask, Nat.lt_one_iff, List.length_eq_zero, h]

theorem queueTask_of_ne_nil {s : TaskQueue} (t : Nat) (h : s.taskQueue ≠ []) :
    s.queueTask t = { s with taskQueue := s.taskQueue ++ [t] } := by
  simp [TaskQueue.queueTask, Nat.lt_one_iff, List.length_eq_zero, h]

theorem queueTask_of_nil {s : TaskQueue} (t : Nat) (h : s.taskQueue = []) :
    s.queueTask t =
      { s with taskQueue := s.taskQueue ++ [t],
               requestFlushTaskQueueCalls := s.requestFlushTaskQueueCalls + 1 } := by
  simp [TaskQueue.queueTask, Nat.lt_one_iff, List.length_eq_zero, h]

theorem queueMicroTask_proj (s : TaskQueue) (t : Nat) :
    (s.queueMicroTask t).microTaskQueue = s.microTaskQueue ++ [t] ∧
    (s.queueMicroTask t).taskQueue = s.taskQueue ∧
    (s.queueMicroTask t).trace = s.trace ∧
    (s.queueMicroTask t).handlerCalls = s.handlerCalls ∧
    (s.queueMicroTask t).asyncRaises = s.asyncRaises ∧
    (s.queueMicroTask t).microTaskQueueCapacity = s.microTaskQueueCapacity ∧
    (s.queueMicroTask t).requestFlushTaskQueueCalls = s.requestFlushTaskQueueCalls := by
  by_cases h : s.microTaskQueue = []
  · rw [queueMicroTask_of_nil t h]; exact ⟨rfl, rfl, rfl, rfl, rfl, rfl, rfl⟩
  · rw [queueMicroTask_of_ne_nil t h]; exact ⟨rfl, rfl, rfl, rfl, rfl, rfl, rfl⟩

theorem queueTask_proj (s : TaskQueue) (t : Nat) :
    (s.queueTask t).taskQueue = s.taskQueue ++ [t] ∧
    (s.queueTask t).microTaskQueue = s.microTaskQueue ∧
    (s.queueTask t).trace = s.trace ∧
    (s.queueTask t).handlerCalls = s.handlerCalls ∧
    (s.queueTask t).asyncRaises = s.asyncRaises ∧
    (s.queueTask t).microTaskQueueCapacity = s.microTaskQueueCapacity ∧
    (s.queueTask t).requestFlushMicroTaskQueueCalls = s.requestFlushMicroTaskQueueCalls := by
  by_cases h : s.taskQueue = []
  · rw [queueTask_of_nil t h]; exact ⟨rfl, rfl, rfl, rfl, rfl, rfl, rfl⟩
  · rw [queueTask_of_ne_nil t h]; exact ⟨rfl, rfl, rfl, rfl, rfl, rfl, rfl⟩

theorem foldl_queueMicroTask_fields (l : List Nat) : ∀ s : TaskQueue,
    (l.foldl TaskQueue.queueMicroTask s).microTaskQueue = s.microTaskQueue ++ l ∧
    (l.foldl TaskQueue.queueMicroTask s).taskQueue = s.taskQueue ∧
    (l.foldl TaskQueue.queueMicroTask s).trace = s.trace ∧
    (l.foldl TaskQueue.queueMicroTask s).handlerCalls = s.handlerCalls ∧
    (l.foldl TaskQueue.queueMicroTask s).asyncRaises = s.asyncRaises ∧
    (l.foldl TaskQueue.queueMicroTask s).microTaskQueueCapacity = s.microTaskQueueCapacity ∧
    (l.foldl TaskQueue.queueMicroTask s).requestFlushTaskQueueCalls
      = s.requestFlushTaskQueueCalls := by
  induction l with
  | nil => intro s; simp
  | cons a l ih =>
    intro s
    obtain ⟨h1, h2, h3, h4, h5, h6, h7⟩ := ih (s.queueMicroTask a)
    obtain ⟨p1, p2, p3, p4, p5, p6, p7⟩ := queueMicroTask_proj s a
    simp only [List.foldl_cons]
    exact ⟨by rw [h1, p1]; simp, by rw [h2, p2], by rw [h3, p3], by rw [h4, p4],
      by rw [h5, p5], by rw [h6, p6], by rw [h7, p7]⟩

theorem foldl_queueTask_fields (l : List Nat) : ∀ s : TaskQueue,
    (l.foldl TaskQueue.queueTask s).taskQueue = s.taskQueue ++ l ∧
    (l.foldl TaskQueue.queueTask s).microTaskQueue = s.microTaskQueue ∧
    (l.foldl TaskQueue.queueTask s).trace = s.trace ∧
    (l.foldl TaskQueue.queueTask s).handlerCalls = s.handlerCalls ∧
    (l.foldl TaskQueue.queueTask s).asyncRaises = s.asyncRaises ∧
    (l.foldl TaskQueue.queueTask s).microTaskQueueCapacity = s.microTaskQueueCapacity ∧
    (l.foldl TaskQueue.queueTask s).requestFlushMicroTaskQueueCalls
      = s.requestFlushMicroTaskQueueCalls := by
  induction l with
  | nil => intro s; simp
  | cons a l ih =>
    intro s
    obtain ⟨h1, h2, h3, h4, h5, h6, h7⟩ := ih (s.queueTask a)
    obtain ⟨p1, p2, p3, p4, p5, p6, p7⟩ := queueTask_proj s a
    simp only [List.foldl_cons]
    exact ⟨by rw [h1, p1]; simp, by rw [h2, p2], by rw [h3, p3], by rw [h4, p4],
      by rw [h5, p5], by rw [h6, p6], by rw [h7, p7]⟩

theorem foldl_queueMicroTask_calls_of_ne_nil (l : List Nat) : ∀ s : TaskQueue,
    s.microTaskQueue ≠ [] →
    (l.foldl TaskQueue.queueMicroTask s).requestFlushMicroTaskQueueCalls
      = s.requestFlushMicroTaskQueueCalls := by
  induction l with
  | nil => intro s _; rfl
  | cons a l ih =>
    intro s h
    simp only [List.foldl_cons, queueMicroTask_of_ne_nil a h]
    exact ih _ (by simp)

theorem foldl_queueTask_calls_of_ne_nil (l : List Nat) : ∀ s : TaskQueue,
    s.taskQueue ≠ [] →
    (l.foldl TaskQueue.queueTask s).requestFlushTaskQueueCalls
      = s.requestFlushTaskQueueCalls := by
  induction l with
  | nil => intro s _; rfl
  | cons a l ih =>
    intro s h
    simp only [List.foldl_cons, queueTask_of_ne_nil a h]
    exact ih _ (by simp)

theorem foldl_queueMicroTask_calls_of_nil {l : List Nat} (s : TaskQueue)
    (h : s.microTaskQueue = []) (hl : l ≠ []) :
    (l.foldl TaskQueue.queueMicroTask s).requestFlushMicroTaskQueueCalls
      = s.requestFlushMicroTaskQueueCalls + 1 := by
  match l, hl with
  | a :: l, _ =>
    simp only [List.foldl_cons, queueMicroTask_of_nil a h]
    rw [foldl_queueMicroTask_calls_of_ne_nil l _ (by simp)]

theorem foldl_queueTask_calls_of_nil {l : List Nat} (s : TaskQueue)
    (h : s.taskQueue = []) (hl : l ≠ []) :
    (l.foldl TaskQueue.queueTask s).requestFlushTaskQueueCalls
      = s.requestFlushTaskQueueCalls + 1 := by
  match l, hl with
  | a :: l, _ =>
    simp only [List.foldl_cons, queueTask_of_nil a h]
    rw [foldl_queueTask_calls_of_ne_nil l _ (by simp)]

/-! ### Characterization of a single task invocation and of the error sink -/

theorem callTask_proj (env : Env) (s : TaskQueue) (t : Nat) :
    (callTask env s t).trace = s.trace ++ [t] ∧
    (callTask env s t).microTaskQueue = s.microTaskQueue ++ (env t).queuesMicroTask ∧
    (callTask env s t).taskQueue = s.taskQueue ++ (env t).queuesTask ∧
    (callTask env s t).handlerCalls = s.handlerCalls ∧
    (callTask env s t).asyncRaises = s.asyncRaises ∧
    (callTask env s t).microTaskQueueCapacity = s.microTaskQueueCapacity := by
  unfold callTask
  obtain ⟨m1, m2, m3, m4, m5, m6, m7⟩ :=
    foldl_queueMicroTask_fields (env t).queuesMicroTask { s with trace := s.trace ++ [t] }
  obtain ⟨t1, t2, t3, t4, t5, t6, t7⟩ := foldl_queueTask_fields (env t).queuesTask _
  exact ⟨by rw [t3, m3], by rw [t2, m1], by rw [t1, m2], by rw [t4, m4],
    by rw [t5, m5], by rw [t6, m6]⟩

theorem callTask_microCalls (env : Env) (s : TaskQueue) (t : Nat)
    (h : s.microTaskQueue ≠ []) :
    (callTask env s t).requestFlushMicroTaskQueueCalls
      = s.requestFlushMicroTaskQueueCalls := by
  unfold callTask
  obtain ⟨_, _, _, _, _, _, t7⟩ := foldl_queueTask_fields (env t).queuesTask _
  rw [t7, foldl_queueMicroTask_calls_of_ne_nil _ _ (by simpa using h)]

theorem callTask_pure {env : Env} {t : Nat} (s : TaskQueue) (h : PureTask env t) :
    callTask env s t = { s with trace := s.trace ++ [t] } := by
  obtain ⟨h1, h2, _⟩ := h
  unfold callTask
  rw [h1, h2]
  rfl

theorem onError_proj (hasSetImmediate : Bool) (env : Env) (s : TaskQueue) (e t : Nat) :
    (onError hasSetImmediate env s e t).trace = s.trace ∧
    (onError hasSetImmediate env s e t).taskQueue = s.taskQueue ∧
    (onError hasSetImmediate env s e t).microTaskQueueCapacity = s.microTaskQueueCapacity ∧
    ((env t).hasOnError = true →
      (onError hasSetImmediate env s e t).handlerCalls = s.handlerCalls ++ [(e, t)] ∧
      (onError hasSetImmediate env s e t).asyncRaises = s.asyncRaises) ∧
    ((env t).hasOnError = false →
      (onError hasSetImmediate env s e t).handlerCalls = s.handlerCalls ∧
      (onError hasSetImmediate env s e t).asyncRaises = s.asyncRaises ++
        [if hasSetImmediate then Escalation.viaSetImmediate e
         else Escalation.viaSetTimeoutZero e]) := by
  unfold onError
  by_cases h : (env t).hasOnError
  · obtain ⟨m1, m2, m3, m4, m5, m6, m7⟩ := foldl_queueMicroTask_fields
      (env t).onErrorQueuesMicroTask { s with handlerCalls := s.handlerCalls ++ [(e, t)] }
    rw [if_pos h]
    exact ⟨m3, m2, m6, fun _ => ⟨m4, m5⟩, fun hf => absurd h (by simp [hf])⟩
  · rw [if_neg h]
    refine ⟨?_, ?_, ?_, fun ht => absurd ht (by simpa using h), fun _ => ?_⟩ <;>
      cases hasSetImmediate <;> simp

/-! ### The dual-timer flush scheduler -/

theorem runTimerEvents_cleared (evs : List TimerEvent) : ∀ s : TimerState,
    s.timeoutLive = false → s.intervalLive = false → runTimerEvents s evs = s := by
  induction evs with
  | nil => intro s _ _; rfl
  | cons ev evs ih =>
    intro s h1 h2
    have hstep : timerStep s ev = s := by cases ev <;> simp [timerStep, h1, h2]
    show runTimerEvents (timerStep s ev) evs = s
    rw [hstep]
    exact ih s h1 h2

theorem timerStep_armed (ev : TimerEvent) :
    timerStep requestFlushTimerArmed ev = ⟨false, false, 1⟩ := by
  cases ev <;> rfl

/-- C9: for a single call to the timer-based `requestFlush`, in every firing
order of the zero-delay one-shot timer and the 50ms repeating timer
(including repeated interval ticks), the drain callback `flush` is invoked
exactly once — once per nonempty firing order, never more — and the first
tick to arrive clears both timer handles, so the losing timer never invokes
the drain. -/
theorem c9_timer_race_exactly_once :
    (∀ evs : List TimerEvent,
      (runTimerEvents requestFlushTimerArmed evs).flushCalls = min evs.length 1) ∧
    (∀ (ev : TimerEvent) (evs : List TimerEvent),
      runTimerEvents requestFlushTimerArmed (ev :: evs) = ⟨false, false, 1⟩) := by
  have hcons : ∀ (ev : TimerEvent) (evs : List TimerEvent),
      runTimerEvents requestFlushTimerArmed (ev :: evs) = ⟨false, false, 1⟩ := by
    intro ev evs
    show runTimerEvents (timerStep requestFlushTimerArmed ev) evs = _
    rw [timerStep_armed]
    exact runTimerEvents_cleared evs _ rfl rfl
  refine ⟨fun evs => ?_, hcons⟩
  cases evs with
  | nil => rfl
  | cons ev evs => rw [hcons ev evs]; simp

/-! ### Arm-once: the flush schedulers are requested only on the
empty-to-nonempty transition -/

/-- C5: for every sequence of consecutive `queueMicroTask` (resp.
`queueTask`) calls starting from an empty tier queue with no intervening
drain, the tier's `requestFlush` is called exactly once, at the first call
(the 0-to-1 transition); and `requestFlush` is never called by an enqueue
while the tier's queue is already non-empty. -/
theorem c5_arm_once (s : TaskQueue) (ts : List Nat) (hts : ts ≠ []) :
    (s.microTaskQueue = [] →
      (ts.foldl TaskQueue.queueMicroTask s).requestFlushMicroTaskQueueCalls
        = s.requestFlushMicroTaskQueueCalls + 1) ∧
    (s.taskQueue = [] →
      (ts.foldl TaskQueue.queueTask s).requestFlushTaskQueueCalls
        = s.requestFlushTaskQueueCalls + 1) ∧
    (∀ t : Nat, s.microTaskQueue ≠ [] →
      (s.queueMicroTask t).requestFlushMicroTaskQueueCalls
        = s.requestFlushMicroTaskQueueCalls) ∧
    (∀ t : Nat, s.taskQueue ≠ [] →
      (s.queueTask t).requestFlushTaskQueueCalls = s.requestFlushTaskQueueCalls) :=
  ⟨fun h => foldl_queueMicroTask_calls_of_nil s h hts,
   fun h => foldl_queueTask_calls_of_nil s h hts,
   fun t h => by rw [queueMicroTask_of_ne_nil t h],
   fun t h => by rw [queueTask_of_ne_nil t h]⟩

/-- Witness for C5: three consecutive enqueues on a fresh queue issue
exactly one `requestFlush` on the owning tier, and an enqueue on an already
non-empty tier issues none. -/
theorem c5_arm_once_witness :
    (([0, 1, 2] : List Nat).foldl TaskQueue.queueMicroTask
        TaskQueue.init).requestFlushMicroTaskQueueCalls = 1 ∧
    (([0, 1, 2] : List Nat).foldl TaskQueue.queueTask
        TaskQueue.init).requestFlushTaskQueueCalls = 1 ∧
    (TaskQueue.queueMicroTask
      { TaskQueue.init with microTaskQueue := [9] } 4).requestFlushMicroTaskQueueCalls = 0 ∧
    (TaskQueue.queueTask
      { TaskQueue.init with taskQueue := [9] } 4).requestFlushTaskQueueCalls = 0 := by
  refine ⟨?_, ?_, ?_, ?_⟩
  · simpa [TaskQueue.init] using
      (c5_arm_once TaskQueue.init [0, 1, 2] (by simp)).1 rfl
  · simpa [TaskQueue.init] using
      (c5_arm_once TaskQueue.init [0, 1, 2] (by simp)).2.1 rfl
  · simpa [TaskQueue.init] using
      (c5_arm_once { TaskQueue.init with microTaskQueue := [9] } [0]
        (by simp)).2.2.1 4 (by simp)
  · simpa [TaskQueue.init] using
      (c5_arm_once { TaskQueue.init with taskQueue := [9] } [0]
        (by simp)).2.2.2 4 (by simp)

/-! ### The error sink dispatch -/

/-- C7: for every error thrown by a task body during either drain, `onError`
invokes the task's own `onError` handler synchronously with the error when
the task exposes one (recorded in `handlerCalls`, with nothing scheduled
asynchronously); otherwise the error is escalated asynchronously, through
`setImmediate` when it exists, else through a zero-delay `setTimeout` — in
no case is anything re-raised synchronously inside the drain call (the
result is always an ordinary state, the escalation merely being recorded as
scheduled). -/
theorem c7_onError_dispatch (hasSetImmediate : Bool) (env : Env) (s : TaskQueue) (e t : Nat) :
    ((env t).hasOnError = true →
      (onError hasSetImmediate env s e t).handlerCalls = s.handlerCalls ++ [(e, t)] ∧
      (onError hasSetImmediate env s e t).asyncRaises = s.asyncRaises) ∧
    ((env t).hasOnError = false → hasSetImmediate = true →
      (onError hasSetImmediate env s e t).asyncRaises
        = s.asyncRaises ++ [Escalation.viaSetImmediate e] ∧
      (onError hasSetImmediate env s e t).handlerCalls = s.handlerCalls) ∧
    ((env t).hasOnError = false → hasSetImmediate = false →
      (onError hasSetImmediate env s e t).asyncRaises
        = s.asyncRaises ++ [Escalation.viaSetTimeoutZero e] ∧
      (onError hasSetImmediate env s e t).handlerCalls = s.handlerCalls) := by
  obtain ⟨_, _, _, hT, hF⟩ := onError_proj hasSetImmediate env s e t
  refine ⟨hT, fun hf hi => ?_, fun hf hi => ?_⟩
  · obtain ⟨h1, h2⟩ := hF hf
    subst hi
    simpa using ⟨h2, h1⟩
  · obtain ⟨h1, h2⟩ := hF hf
    subst hi
    simpa using ⟨h2, h1⟩

/-- Witness for C7: a task with a handler gets it invoked synchronously
with the error; a handlerless task's error is escalated through
`setImmediate` when available, else through a zero-delay `setTimeout`. -/
theorem c7_onError_dispatch_witness :
    (onError true envHandlerRequeue TaskQueue.init 7 0).handlerCalls = [(7, 0)] ∧
    (onError true pureEnv TaskQueue.init 7 0).asyncRaises
      = [Escalation.viaSetImmediate 7] ∧
    (onError false pureEnv TaskQueue.init 7 0).asyncRaises
      = [Escalation.viaSetTimeoutZero 7] := by
  refine ⟨?_, ?_, ?_⟩
  · simpa [TaskQueue.init] using
      ((c7_onError_dispatch true envHandlerRequeue TaskQueue.init 7 0).1
        (by simp [envHandlerRequeue])).1
  · simpa [TaskQueue.init] using
      ((c7_onError_dispatch true pureEnv TaskQueue.init 7 0).2.1
        (by simp [pureEnv, pureSpec]) rfl).1
  · simpa [TaskQueue.init] using
      ((c7_onError_dispatch false pureEnv TaskQueue.init 7 0).2.2
        (by simp [pureEnv, pureSpec]) rfl).1

/-! ### Characterization of the macro-tier drain -/

theorem flushTaskQueueTry_ok (env : Env) : ∀ (q : List Nat) (s s' : TaskQueue),
    flushTaskQueueTry env q s = .ok s' →
    s'.trace = s.trace ++ q ∧ (∀ t ∈ q, (env t).throws = none) ∧
    s'.taskQueue = s.taskQueue ++ enqueuedTask env q ∧
    s'.handlerCalls = s.handlerCalls ∧ s'.asyncRaises = s.asyncRaises ∧
    s'.microTaskQueueCapacity = s.microTaskQueueCapacity := by
  intro q
  induction q with
  | nil =>
    intro s s' h
    rw [flushTaskQueueTry] at h
    cases h
    simp [enqueuedTask]
  | cons t q ih =>
    intro s s' h
    rw [flushTaskQueueTry] at h
    cases hthrow : (env t).throws with
    | some e => rw [hthrow] at h; cases h
    | none =>
      rw [hthrow] at h
      obtain ⟨h1, h2, h3, h4, h5, h6⟩ := ih (callTask env s t) s' h
      obtain ⟨c1, c2, c3, c4, c5, c6⟩ := callTask_proj env s t
      refine ⟨by rw [h1, c1]; simp, ?_, by rw [h3, c3]; simp [enqueuedTask],
        by rw [h4, c4], by rw [h5, c5], by rw [h6, c6]⟩
      intro u hu
      rcases List.mem_cons.1 hu with rfl | hu
      · exact hthrow
      · exact h2 u hu

theorem flushTaskQueueTry_err (env : Env) : ∀ (q : List Nat) (s s1 : TaskQueue) (e b : Nat),
    flushTaskQueueTry env q s = .err s1 e b →
    ∃ q0 q1, q = q0 ++ b :: q1 ∧ (∀ t ∈ q0, (env t).throws = none) ∧
      (env b).throws = some e ∧
      s1.trace = s.trace ++ (q0 ++ [b]) ∧
      s1.taskQueue = s.taskQueue ++ enqueuedTask env (q0 ++ [b]) ∧
      s1.handlerCalls = s.handlerCalls ∧ s1.asyncRaises = s.asyncRaises ∧
      s1.microTaskQueueCapacity = s.microTaskQueueCapacity := by
  intro q
  induction q with
  | nil => intro s s1 e b h; rw [flushTaskQueueTry] at h; cases h
  | cons t q ih =>
    intro s s1 e b h
    rw [flushTaskQueueTry] at h
    cases hthrow : (env t).throws with
    | some e2 =>
      rw [hthrow] at h
      cases h
      obtain ⟨c1, c2, c3, c4, c5, c6⟩ := callTask_proj env s t
      exact ⟨[], q, rfl, by simp, hthrow, by simpa using c1, by simpa [enqueuedTask] using c3,
        c4, c5, c6⟩
    | none =>
      rw [hthrow] at h
      obtain ⟨q0, q1, hq, hq0, hb, h1, h2, h3, h4, h5⟩ := ih (callTask env s t) s1 e b h
      obtain ⟨c1, c2, c3, c4, c5, c6⟩ := callTask_proj env s t
      refine ⟨t :: q0, q1, by rw [hq]; rfl, ?_, hb,
        by rw [h1, c1]; simp, by rw [h2, c3]; simp [enqueuedTask],
        by rw [h3, c4], by rw [h4, c5], by rw [h5, c6]⟩
      intro u hu
      rcases List.mem_cons.1 hu with rfl | hu
      · exact hthrow
      · exact hq0 u hu

theorem mem_enqueuedTask (env : Env) (D : Nat) : ∀ q : List Nat,
    (∃ t ∈ q, D ∈ (env t).queuesTask) → D ∈ enqueuedTask env q := by
  intro q
  induction q with
  | nil => rintro ⟨t, ht, _⟩; cases ht
  | cons a q ih =>
    rintro ⟨t, ht, hD⟩
    rcases List.mem_cons.1 ht with rfl | ht
    · exact List.mem_append.2 (Or.inl hD)
    · exact List.mem_append.2 (Or.inr (ih ⟨t, ht, hD⟩))

theorem flushTaskQueue_no_throw (hsi : Bool) (env : Env) (s : TaskQueue)
    (hthrows : ∀ t ∈ s.taskQueue, (env t).throws = none) :
    (flushTaskQueue hsi env s).trace = s.trace ++ s.taskQueue ∧
    (flushTaskQueue hsi env s).taskQueue = enqueuedTask env s.taskQueue ∧
    (flushTaskQueue hsi env s).handlerCalls = s.handlerCalls ∧
    (flushTaskQueue hsi env s).asyncRaises = s.asyncRaises ∧
    (flushTaskQueue hsi env s).microTaskQueueCapacity = s.microTaskQueueCapacity := by
  have hdef : flushTaskQueue hsi env s =
      match flushTaskQueueTry env s.taskQueue { s with taskQueue := [] } with
      | .ok s2 => s2
      | .err s2 e t => onError hsi env s2 e t := rfl
  cases houtcome : flushTaskQueueTry env s.taskQueue { s with taskQueue := [] } with
  | ok s2 =>
    rw [hdef, houtcome]
    obtain ⟨h1, _, h3, h4, h5, h6⟩ := flushTaskQueueTry_ok env s.taskQueue _ s2 houtcome
    exact ⟨h1, by simpa using h3, h4, h5, h6⟩
  | err s2 e b =>
    obtain ⟨q0, q1, hq, _, hb, _⟩ := flushTaskQueueTry_err env s.taskQueue _ s2 e b houtcome
    have hbmem : b ∈ s.taskQueue := by rw [hq]; simp
    rw [hthrows b hbmem] at hb
    cases hb

/-- C3: for every task D enqueued through `queueTask` by a task running
inside `flushTaskQueue`, D is not invoked within that same drain cycle (its
invocation sequence is exactly the captured queue, which does not contain
D); D is invoked in the next drain cycle.  Stated for runs in which no task
throws, with D fresh (not already pending). -/
theorem c3_taskQueue_reentrancy_deferred (hsi : Bool) (env : Env) (s : TaskQueue) (D : Nat)
    (hthrows : ∀ t, (env t).throws = none)
    (hD : D ∉ s.taskQueue)
    (hsrc : ∃ t ∈ s.taskQueue, D ∈ (env t).queuesTask) :
    D ∉ (flushTaskQueue hsi env s).trace.drop s.trace.length ∧
    D ∈ (flushTaskQueue hsi env (flushTaskQueue hsi env s)).trace.drop
          (flushTaskQueue hsi env s).trace.length := by
  obtain ⟨h1, h2, _, _, _⟩ := flushTaskQueue_no_throw hsi env s (fun t _ => hthrows t)
  obtain ⟨g1, g2, _, _, _⟩ :=
    flushTaskQueue_no_throw hsi env (flushTaskQueue hsi env s) (fun t _ => hthrows t)
  constructor
  · rw [h1, List.drop_left]
    exact hD
  · rw [g1, List.drop_left, h2]
    exact mem_enqueuedTask env D s.taskQueue hsrc

/-- Witness for C3: with tasks 1 and 2 pending on the macro tier and task 1
enqueueing task 5 reentrantly, task 5 is not invoked by the first drain but
is invoked by the second. -/
theorem c3_taskQueue_reentrancy_deferred_witness :
    5 ∉ (flushTaskQueue true envReentrantTask
          { TaskQueue.init with taskQueue := [1, 2] }).trace.drop
          ({ TaskQueue.init with taskQueue := [1, 2] } : TaskQueue).trace.length ∧
    5 ∈ (flushTaskQueue true envReentrantTask (flushTaskQueue true envReentrantTask
          { TaskQueue.init with taskQueue := [1, 2] })).trace.drop
          (flushTaskQueue true envReentrantTask
            { TaskQueue.init with taskQueue := [1, 2] }).trace.length := by
  refine c3_taskQueue_reentrancy_deferred true envReentrantTask _ 5 ?_ (by simp) ?_
  · intro t
    by_cases h : t = 1 <;> simp [envReentrantTask, h, pureSpec]
  · exact ⟨1, by simp, by simp [envReentrantTask]⟩

/-! ### Characterization of the micro-tier drain loop -/

theorem microTry_succ (env : Env) (capacity fuel index : Nat) (s : TaskQueue) :
    flushMicroTaskQueueTry env capacity (fuel + 1) index s =
      if h : index < s.microTaskQueue.length then
        match (env (s.microTaskQueue[index])).throws with
        | some e =>
          some (.err (callTask env s (s.microTaskQueue[index])) e (s.microTaskQueue[index]))
        | none =>
          if index + 1 > capacity then
            flushMicroTaskQueueTry env capacity fuel 0
              { callTask env s (s.microTaskQueue[index]) with
                microTaskQueue :=
                  compact (callTask env s (s.microTaskQueue[index])).microTaskQueue (index + 1) }
          else
            flushMicroTaskQueueTry env capacity fuel (index + 1)
              (callTask env s (s.microTaskQueue[index]))
      else some (.ok s) := rfl

theorem flushMicroTaskQueueTry_spec (env : Env) (c : Nat) : ∀ (fuel i : Nat)
    (s : TaskQueue) (out : FlushOutcome),
    flushMicroTaskQueueTry env c fuel i s = some out →
    (∀ s', out = .ok s' →
      ∃ d, s'.trace = s.trace ++ d ∧ (∀ t ∈ d, (env t).throws = none) ∧
        s'.handlerCalls = s.handlerCalls ∧ s'.asyncRaises = s.asyncRaises ∧
        s'.requestFlushMicroTaskQueueCalls = s.requestFlushMicroTaskQueueCalls ∧
        s'.microTaskQueueCapacity = s.microTaskQueueCapacity) ∧
    (∀ s1 e b, out = .err s1 e b →
      ∃ d, s1.trace = s.trace ++ (d ++ [b]) ∧ (∀ t ∈ d, (env t).throws = none) ∧
        (env b).throws = some e ∧
        s1.handlerCalls = s.handlerCalls ∧ s1.asyncRaises = s.asyncRaises ∧
        s1.requestFlushMicroTaskQueueCalls = s.requestFlushMicroTaskQueueCalls ∧
        s1.microTaskQueue ≠ [] ∧
        s1.microTaskQueueCapacity = s.microTaskQueueCapacity) := by
  intro fuel
  induction fuel with
  | zero => intro i s out h; cases h
  | succ fuel ih =>
    intro i s out h
    rw [microTry_succ] at h
    by_cases hidx : i < s.microTaskQueue.length
    · rw [dif_pos hidx] at h
      have hne : s.microTaskQueue ≠ [] := by
        intro hnil
        rw [hnil] at hidx
        exact absurd hidx (by simp)
      obtain ⟨c1, c2, c3, c4, c5, c6⟩ := callTask_proj env s (s.microTaskQueue[i])
      have creq := callTask_microCalls env s (s.microTaskQueue[i]) hne
      cases hthrow : (env (s.microTaskQueue[i])).throws with
      | some e =>
        rw [hthrow] at h
        simp only [Option.some.injEq] at h
        subst h
        constructor
        · intro s' hcon
          cases hcon
        · intro s1 e2 b hcon
          obtain ⟨rfl, rfl, rfl⟩ : callTask env s (s.microTaskQueue[i]) = s1 ∧ e = e2 ∧
              s.microTaskQueue[i] = b := by
            injection hcon with p1 p2 p3
            exact ⟨p1, p2, p3⟩
          exact ⟨[], by simpa using c1, by simp, hthrow, c4, c5, creq,
            by rw [c2]; simp [hne], c6⟩
      | none =>
        rw [hthrow] at h
        by_cases hcap : i + 1 > c
        · rw [if_pos hcap] at h
          obtain ⟨hok, herr⟩ := ih 0 _ out h
          constructor
          · intro s' hout
            obtain ⟨d, g1, g2, g3, g4, g5, g6⟩ := hok s' hout
            refine ⟨s.microTaskQueue[i] :: d, ?_, ?_, by rw [g3]; exact c4,
              by rw [g4]; exact c5, by rw [g5]; exact creq, by rw [g6]; exact c6⟩
            · rw [g1]
              show _ ++ _ = _
              rw [c1]
              simp
            · intro t ht
              rcases List.mem_cons.1 ht with rfl | ht
              · exact hthrow
              · exact g2 t ht
          · intro s1 e b hout
            obtain ⟨d, g1, g2, g3, g4, g5, g6, g7, g8⟩ := herr s1 e b hout
            refine ⟨s.microTaskQueue[i] :: d, ?_, ?_, g3, by rw [g4]; exact c4,
              by rw [g5]; exact c5, by rw [g6]; exact creq, g7, by rw [g8]; exact c6⟩
            · rw [g1]
              show _ ++ _ = _
              rw [c1]
              simp
            · intro t ht
              rcases List.mem_cons.1 ht with rfl | ht
              · exact hthrow
              · exact g2 t ht
        · rw [if_neg hcap] at h
          obtain ⟨hok, herr⟩ := ih (i + 1) _ out h
          constructor
          · intro s' hout
            obtain ⟨d, g1, g2, g3, g4, g5, g6⟩ := hok s' hout
            refine ⟨s.microTaskQueue[i] :: d, by rw [g1, c1]; simp, ?_,
              by rw [g3]; exact c4, by rw [g4]; exact c5, by rw [g5]; exact creq,
              by rw [g6]; exact c6⟩
            intro t ht
            rcases List.mem_cons.1 ht with rfl | ht
            · exact hthrow
            · exact g2 t ht
          · intro s1 e b hout
            obtain ⟨d, g1, g2, g3, g4, g5, g6, g7, g8⟩ := herr s1 e b hout
            refine ⟨s.microTaskQueue[i] :: d, by rw [g1, c1]; simp, ?_, g3,
              by rw [g4]; exact c4, by rw [g5]; exact c5, by rw [g6]; exact creq,
              g7, by rw [g8]; exact c6⟩
            intro t ht
            rcases List.mem_cons.1 ht with rfl | ht
            · exact hthrow
            · exact g2 t ht
    · rw [dif_neg hidx] at h
      simp only [Option.some.injEq] at h
      subst h
      constructor
      · intro s' hout
        obtain rfl : s = s' := by injection hout
        exact ⟨[], by simp, by simp, rfl, rfl, rfl, rfl⟩
      · intro s1 e b hcon
        cases hcon

/-- C6: for every completed micro drain in which some invoked task throws,
the while loop aborts at the thrower — the invocation sequence of the cycle
is a throw-free prefix followed by the throwing task, with nothing after
it — the error and the throwing task are handed to `onError` (the handler
is invoked with them when the task has one, else the asynchronous
escalation is scheduled), and the micro queue is truncated to empty after
the error handling, so all remaining same-cycle tasks are discarded. -/
theorem c6_micro_failure_isolation (hsi : Bool) (env : Env) (fuel : Nat) (s s' : TaskQueue)
    (hrun : flushMicroTaskQueue hsi env fuel s = some s')
    (hthrown : ∃ t ∈ s'.trace.drop s.trace.length, (env t).throws ≠ none) :
    ∃ d b e, s'.trace = s.trace ++ (d ++ [b]) ∧
      (∀ t ∈ d, (env t).throws = none) ∧
      (env b).throws = some e ∧
      ((env b).hasOnError = true → s'.handlerCalls = s.handlerCalls ++ [(e, b)]) ∧
      ((env b).hasOnError = false → s'.asyncRaises = s.asyncRaises ++
        [if hsi then Escalation.viaSetImmediate e else Escalation.viaSetTimeoutZero e]) ∧
      s'.microTaskQueue = [] := by
  have hdef : flushMicroTaskQueue hsi env fuel s =
      match flushMicroTaskQueueTry env s.microTaskQueueCapacity fuel 0 s with
      | none => none
      | some (.ok s1) => some { s1 with microTaskQueue := [] }
      | some (.err s1 e t) =>
        some { onError hsi env s1 e t with microTaskQueue := [] } := rfl
  cases houtcome : flushMicroTaskQueueTry env s.microTaskQueueCapacity fuel 0 s with
  | none => rw [hdef, houtcome] at hrun; cases hrun
  | some out =>
    obtain ⟨hok, herr⟩ :=
      flushMicroTaskQueueTry_spec env s.microTaskQueueCapacity fuel 0 s out houtcome
    cases out with
    | ok s1 =>
      rw [hdef, houtcome] at hrun
      obtain rfl : ({ s1 with microTaskQueue := [] } : TaskQueue) = s' := by
        injection hrun
      obtain ⟨d, g1, g2, _⟩ := hok s1 rfl
      obtain ⟨t, ht, hthrow⟩ := hthrown
      have hd : ({ s1 with microTaskQueue := [] } : TaskQueue).trace.drop s.trace.length
          = d := by
        show s1.trace.drop s.trace.length = d
        rw [g1, List.drop_left]
      rw [hd] at ht
      exact absurd (g2 t ht) hthrow
    | err s1 e b =>
      rw [hdef, houtcome] at hrun
      obtain rfl : ({ onError hsi env s1 e b with microTaskQueue := [] } : TaskQueue)
          = s' := by injection hrun
      obtain ⟨d, g1, g2, g3, g4, g5, _, _, _⟩ := herr s1 e b rfl
      obtain ⟨o1, _, _, oT, oF⟩ := onError_proj hsi env s1 e b
      refine ⟨d, b, e, ?_, g2, g3, fun hT => ?_, fun hF => ?_, rfl⟩
      · show (onError hsi env s1 e b).trace = _
        rw [o1, g1]
      · show (onError hsi env s1 e b).handlerCalls = _
        rw [(oT hT).1, g4]
      · show (onError hsi env s1 e b).asyncRaises = _
        rw [(oF hF).2, g5]

/-- Witness for C6: micro tasks `[0, 1, 2]` with task 1 throwing error 7
and no handler: task 0 runs, the drain stops at task 1, task 2 is
discarded, the error is escalated, and the queue ends empty. -/
theorem c6_micro_failure_isolation_witness :
    ∃ s', flushMicroTaskQueue true envThrowNoHandler 10
        { TaskQueue.init with microTaskQueue := [0, 1, 2] } = some s' ∧
      ∃ d b e, s'.trace
          = ({ TaskQueue.init with microTaskQueue := [0, 1, 2] } : TaskQueue).trace
            ++ (d ++ [b]) ∧
        (∀ t ∈ d, (envThrowNoHandler t).throws = none) ∧
        (envThrowNoHandler b).throws = some e ∧
        ((envThrowNoHandler b).hasOnError = true →
          s'.handlerCalls
            = ({ TaskQueue.init with microTaskQueue := [0, 1, 2] } : TaskQueue).handlerCalls
              ++ [(e, b)]) ∧
        ((envThrowNoHandler b).hasOnError = false →
          s'.asyncRaises
            = ({ TaskQueue.init with microTaskQueue := [0, 1, 2] } : TaskQueue).asyncRaises
              ++ [if true then Escalation.viaSetImmediate e
                  else Escalation.viaSetTimeoutZero e]) ∧
        s'.microTaskQueue = [] := by
  have hs' : flushMicroTaskQueue true envThrowNoHandler 10
      { TaskQueue.init with microTaskQueue := [0, 1, 2] } =
      some { microTaskQueue := [], microTaskQueueCapacity := 1024, taskQueue := [],
             requestFlushMicroTaskQueueCalls := 0, requestFlushTaskQueueCalls := 0,
             trace := [0, 1], handlerCalls := [],
             asyncRaises := [Escalation.viaSetImmediate 7] } := by rfl
  refine ⟨_, hs', c6_micro_failure_isolation true envThrowNoHandler 10 _ _ hs' ?_⟩
  exact ⟨1, by decide, by decide⟩

/-- C8: `queueMicroTask` and `queueTask` always return normally — their
whole effect is the push (plus the possible `requestFlush`), and they never
produce a handler call or an escalation — and no error thrown by a task
body during a drain propagates to the caller: both drains return plain
states in which every throw among the cycle's invoked tasks has been
intercepted and routed through `onError` (counted in `handlerCalls` or
`asyncRaises`). -/
theorem c8_enqueues_safe_errors_intercepted (hsi : Bool) (env : Env) (s : TaskQueue) :
    (∀ t : Nat,
      (s.queueMicroTask t).microTaskQueue = s.microTaskQueue ++ [t] ∧
      (s.queueMicroTask t).handlerCalls = s.handlerCalls ∧
      (s.queueMicroTask t).asyncRaises = s.asyncRaises ∧
      (s.queueTask t).taskQueue = s.taskQueue ++ [t] ∧
      (s.queueTask t).handlerCalls = s.handlerCalls ∧
      (s.queueTask t).asyncRaises = s.asyncRaises) ∧
    ((flushTaskQueue hsi env s).handlerCalls.length
        + (flushTaskQueue hsi env s).asyncRaises.length
      = s.handlerCalls.length + s.asyncRaises.length
        + ((flushTaskQueue hsi env s).trace.drop s.trace.length).countP
            (fun t => ((env t).throws).isSome)) ∧
    (∀ fuel s', flushMicroTaskQueue hsi env fuel s = some s' →
      s'.handlerCalls.length + s'.asyncRaises.length
        = s.handlerCalls.length + s.asyncRaises.length
          + (s'.trace.drop s.trace.length).countP (fun t => ((env t).throws).isSome)) := by
  refine ⟨fun t => ?_, ?_, fun fuel s' hrun => ?_⟩
  · obtain ⟨m1, _, _, m4, m5, _, _⟩ := queueMicroTask_proj s t
    obtain ⟨t1, _, _, t4, t5, _, _⟩ := queueTask_proj s t
    exact ⟨m1, m4, m5, t1, t4, t5⟩
  · have hdef : flushTaskQueue hsi env s =
        match flushTaskQueueTry env s.taskQueue { s with taskQueue := [] } with
        | .ok s2 => s2
        | .err s2 e t => onError hsi env s2 e t := rfl
    cases houtcome : flushTaskQueueTry env s.taskQueue { s with taskQueue := [] } with
    | ok s2 =>
      rw [hdef, houtcome]
      obtain ⟨g1, g2, _, g4, g5, _⟩ := flushTaskQueueTry_ok env s.taskQueue _ s2 houtcome
      have hdelta : s2.trace.drop s.trace.length = s.taskQueue := by
        rw [g1]
        exact List.drop_left s.trace s.taskQueue
      rw [hdelta, g4, g5, List.countP_eq_zero.2 (fun t ht => by simp [g2 t ht])]
      simp
    | err s2 e b =>
      rw [hdef, houtcome]
      obtain ⟨q0, q1, _, hq0, hb, g1, _, g4, g5, _⟩ :=
        flushTaskQueueTry_err env s.taskQueue _ s2 e b houtcome
      obtain ⟨o1, _, _, oT, oF⟩ := onError_proj hsi env s2 e b
      have hdelta : (onError hsi env s2 e b).trace.drop s.trace.length = q0 ++ [b] := by
        rw [o1, g1]
        exact List.drop_left s.trace (q0 ++ [b])
      have hcount : (q0 ++ [b]).countP (fun t => ((env t).throws).isSome) = 1 := by
        rw [List.countP_append, List.countP_eq_zero.2 (fun t ht => by simp [hq0 t ht])]
        simp [List.countP_cons, hb]
      rw [hdelta, hcount]
      by_cases hOE : (env b).hasOnError
      · obtain ⟨e1, e2⟩ := oT hOE
        rw [e1, e2, g4, g5]
        simp
        omega
      · obtain ⟨e1, e2⟩ := oF (by simpa using hOE)
        rw [e1, e2, g4, g5]
        simp
        omega
  · have hdef : flushMicroTaskQueue hsi env fuel s =
        match flushMicroTaskQueueTry env s.microTaskQueueCapacity fuel 0 s with
        | none => none
        | some (.ok s1) => some { s1 with microTaskQueue := [] }
        | some (.err s1 e t) =>
          some { onError hsi env s1 e t with microTaskQueue := [] } := rfl
    cases houtcome : flushMicroTaskQueueTry env s.microTaskQueueCapacity fuel 0 s with
    | none => rw [hdef, houtcome] at hrun; cases hrun
    | some out =>
      obtain ⟨hok, herr⟩ :=
        flushMicroTaskQueueTry_spec env s.microTaskQueueCapacity fuel 0 s out houtcome
      cases out with
      | ok s1 =>
        rw [hdef, houtcome] at hrun
        obtain rfl : ({ s1 with microTaskQueue := [] } : TaskQueue) = s' := by
          injection hrun
        obtain ⟨d, g1, g2, g3, g4, _, _⟩ := hok s1 rfl
        have hdelta : ({ s1 with microTaskQueue := [] } : TaskQueue).trace.drop
            s.trace.length = d := by
          show s1.trace.drop s.trace.length = d
          rw [g1]
          exact List.drop_left s.trace d
        rw [hdelta, List.countP_eq_zero.2 (fun t ht => by simp [g2 t ht])]
        show s1.handlerCalls.length + s1.asyncRaises.length = _
        rw [g3, g4]
        omega
      | err s1 e b =>
        rw [hdef, houtcome] at hrun
        obtain rfl : ({ onError hsi env s1 e b with microTaskQueue := [] } : TaskQueue)
            = s' := by injection hrun
        obtain ⟨d, g1, g2, g3, g4, g5, _, _, _⟩ := herr s1 e b rfl
        obtain ⟨o1, _, _, oT, oF⟩ := onError_proj hsi env s1 e b
        have hdelta : ({ onError hsi env s1 e b with microTaskQueue := [] }
            : TaskQueue).trace.drop s.trace.length = d ++ [b] := by
          show (onError hsi env s1 e b).trace.drop s.trace.length = d ++ [b]
          rw [o1, g1]
          exact List.drop_left s.trace (d ++ [b])
        have hcount : (d ++ [b]).countP (fun t => ((env t).throws).isSome) = 1 := by
          rw [List.countP_append, List.countP_eq_zero.2 (fun t ht => by simp [g2 t ht])]
          simp [List.countP_cons, g3]
        rw [hdelta, hcount]
        show (onError hsi env s1 e b).handlerCalls.length
            + (onError hsi env s1 e b).asyncRaises.length = _
        by_cases hOE : (env b).hasOnError
        · obtain ⟨e1, e2⟩ := oT hOE
          rw [e1, e2, g4, g5]
          simp
          omega
        · obtain ⟨e1, e2⟩ := oF (by simpa using hOE)
          rw [e1, e2, g4, g5]
          simp
          omega

/-- Witness for C8: a concrete enqueue has the stated effect, a macro drain
with a throwing task returns with the error counted as routed, and so does
a micro drain. -/
theorem c8_enqueues_safe_errors_intercepted_witness :
    ((TaskQueue.init.queueMicroTask 3).microTaskQueue = [3] ∧
      (TaskQueue.init.queueMicroTask 3).handlerCalls = []) ∧
    ((flushTaskQueue false envThrowNoHandler
        { TaskQueue.init with taskQueue := [0, 1, 2] }).handlerCalls.length
      + (flushTaskQueue false envThrowNoHandler
          { TaskQueue.init with taskQueue := [0, 1, 2] }).asyncRaises.length
      = ((flushTaskQueue false envThrowNoHandler
            { TaskQueue.init with taskQueue := [0, 1, 2] }).trace.drop 0).countP
          (fun t => ((envThrowNoHandler t).throws).isSome)) ∧
    (∃ s', flushMicroTaskQueue false envThrowNoHandler 10
        { TaskQueue.init with microTaskQueue := [0, 1, 2] } = some s' ∧
      s'.handlerCalls.length + s'.asyncRaises.length
        = (s'.trace.drop 0).countP (fun t => ((envThrowNoHandler t).throws).isSome)) := by
  refine ⟨?_, ?_, ?_⟩
  · obtain ⟨h, _, _, _, _, _⟩ := (c8_enqueues_safe_errors_intercepted false pureEnv
      TaskQueue.init).1 3
    exact ⟨h, rfl⟩
  · have h := (c8_enqueues_safe_errors_intercepted false envThrowNoHandler
      { TaskQueue.init with taskQueue := [0, 1, 2] }).2.1
    simpa [TaskQueue.init] using h
  · have hs' : flushMicroTaskQueue false envThrowNoHandler 10
        { TaskQueue.init with microTaskQueue := [0, 1, 2] } =
        some { microTaskQueue := [], microTaskQueueCapacity := 1024, taskQueue := [],
               requestFlushMicroTaskQueueCalls := 0, requestFlushTaskQueueCalls := 0,
               trace := [0, 1], handlerCalls := [],
               asyncRaises := [Escalation.viaSetTimeoutZero 7] } := by rfl
    refine ⟨_, hs', ?_⟩
    have h := (c8_enqueues_safe_errors_intercepted false envThrowNoHandler
      { TaskQueue.init with microTaskQueue := [0, 1, 2] }).2.2 10 _ hs'
    simpa [TaskQueue.init] using h

/-! ### Single-step reductions of the micro drain loop -/

theorem microTry_done (env : Env) (c f i : Nat) (s : TaskQueue)
    (h : s.microTaskQueue.length ≤ i) :
    flushMicroTaskQueueTry env c (f + 1) i s = some (.ok s) := by
  rw [microTry_succ, dif_neg (by omega)]

theorem microTry_step_throw (env : Env) (c f i : Nat) (s : TaskQueue)
    (hidx : i < s.microTaskQueue.length) (e : Nat)
    (hthrow : (env (s.microTaskQueue[i])).throws = some e) :
    flushMicroTaskQueueTry env c (f + 1) i s
      = some (.err (callTask env s (s.microTaskQueue[i])) e (s.microTaskQueue[i])) := by
  simp only [microTry_succ, dif_pos hidx, hthrow]

theorem microTry_step_nocap (env : Env) (c f i : Nat) (s : TaskQueue)
    (hidx : i < s.microTaskQueue.length)
    (hthrow : (env (s.microTaskQueue[i])).throws = none)
    (hcap : ¬ i + 1 > c) :
    flushMicroTaskQueueTry env c (f + 1) i s
      = flushMicroTaskQueueTry env c f (i + 1) (callTask env s (s.microTaskQueue[i])) := by
  simp only [microTry_succ, dif_pos hidx, hthrow, if_neg hcap]

theorem microTry_step_cap (env : Env) (c f i : Nat) (s : TaskQueue)
    (hidx : i < s.microTaskQueue.length)
    (hthrow : (env (s.microTaskQueue[i])).throws = none)
    (hcap : i + 1 > c) :
    flushMicroTaskQueueTry env c (f + 1) i s
      = flushMicroTaskQueueTry env c f 0
          { callTask env s (s.microTaskQueue[i]) with
            microTaskQueue :=
              compact (callTask env s (s.microTaskQueue[i])).microTaskQueue (i + 1) } := by
  simp only [microTry_succ, dif_pos hidx, hthrow, if_pos hcap]

/-- Walking a block of pure tasks: if the queue slice starting at the read
cursor begins with the pure tasks `A` and the cursor stays below the
capacity threshold throughout, the loop invokes exactly `A`, in order, and
continues past them with the queue unchanged. -/
theorem microTry_pure_steps (env : Env) (c : Nat) : ∀ (A R : List Nat) (f i : Nat)
    (s : TaskQueue),
    s.microTaskQueue.drop i = A ++ R → (∀ a ∈ A, PureTask env a) →
    i + A.length ≤ c →
    flushMicroTaskQueueTry env c (f + A.length) i s
      = flushMicroTaskQueueTry env c f (i + A.length) { s with trace := s.trace ++ A } := by
  intro A
  induction A with
  | nil =>
    intro R f i s _ _ _
    show flushMicroTaskQueueTry env c (f + 0) i s = _
    simp only [Nat.add_zero, List.append_nil, List.length_nil]
  | cons a A ih =>
    intro R f i s hdrop hpure hle
    have hidx : i < s.microTaskQueue.length := by
      by_contra hge
      rw [List.drop_eq_nil_of_le (by omega)] at hdrop
      cases hdrop
    have hcons := List.drop_eq_getElem_cons hidx
    rw [hdrop, List.cons_append] at hcons
    injection hcons with h1 h2
    have hget : s.microTaskQueue[i] = a := h1.symm
    have hdrop2 : s.microTaskQueue.drop (i + 1) = A ++ R := h2.symm
    have hlen : i + (A.length + 1) ≤ c := by
      simpa using hle
    have hpa : PureTask env a := hpure a (by simp)
    have hstep : flushMicroTaskQueueTry env c ((f + A.length) + 1) i s
        = flushMicroTaskQueueTry env c (f + A.length) (i + 1)
            { s with trace := s.trace ++ [a] } := by
      rw [microTry_step_nocap env c (f + A.length) i s hidx
        (by rw [hget]; exact hpa.2.2) (by omega)]
      rw [hget, callTask_pure s hpa]
    have hrec := ih R f (i + 1) { s with trace := s.trace ++ [a] }
      (by simpa using hdrop2) (fun x hx => hpure x (by simp [hx])) (by omega)
    show flushMicroTaskQueueTry env c ((f + A.length) + 1) i s = _
    rw [hstep, hrec]
    have hidxeq : i + 1 + A.length = i + (A.length + 1) := by omega
    rw [hidxeq]
    show _ = flushMicroTaskQueueTry env c f (i + (A.length + 1))
      { s with trace := s.trace ++ (a :: A) }
    have htr : (s.trace ++ [a]) ++ A = s.trace ++ (a :: A) := by simp
    rw [htr]

/-- C10 (implicit): if a micro task B throws and its `onError` handler
synchronously calls `queueMicroTask` with a task E, the newly enqueued task
is silently lost: the micro queue is still non-empty when the handler runs,
so `requestFlush` is not armed (the call counter is unchanged across the
whole drain), and the drain's final truncation `queue.length = 0` discards
the task — E is not invoked in this cycle, it is no longer queued
afterwards, and a subsequent drain of the resulting state invokes nothing,
so E never executes in any cycle. -/
theorem c10_handler_requeue_lost (hsi : Bool) (env : Env) (s : TaskQueue)
    (A : List Nat) (B E e : Nat)
    (hq : s.microTaskQueue = A ++ [B])
    (hA : ∀ a ∈ A, PureTask env a)
    (hcap : A.length ≤ s.microTaskQueueCapacity)
    (hB : (env B).throws = some e)
    (hOE : (env B).hasOnError = true)
    (hEnq : E ∈ (env B).onErrorQueuesMicroTask)
    (hEA : E ∉ A) (hEB : E ≠ B) :
    ∃ s', flushMicroTaskQueue hsi env (A.length + 2) s = some s' ∧
      E ∉ s'.trace.drop s.trace.length ∧
      s'.microTaskQueue = [] ∧
      s'.requestFlushMicroTaskQueueCalls = s.requestFlushMicroTaskQueueCalls ∧
      (∀ f : Nat, flushMicroTaskQueue hsi env (f + 1) s' = some s') := by
  have hne : s.microTaskQueue ≠ [] := by rw [hq]; simp
  have hwalk := microTry_pure_steps env s.microTaskQueueCapacity A [B] 2 0 s
    (by simpa using hq) hA (by simpa using hcap)
  have hidx : A.length < ({ s with trace := s.trace ++ A } : TaskQueue).microTaskQueue.length := by
    show A.length < s.microTaskQueue.length
    rw [hq]
    simp
  have hgetB : ({ s with trace := s.trace ++ A } : TaskQueue).microTaskQueue[A.length] = B := by
    have hq2 : ({ s with trace := s.trace ++ A } : TaskQueue).microTaskQueue = A ++ [B] := hq
    rw [List.getElem_of_eq hq2]
    simp
  have hthrowB : (env (({ s with trace := s.trace ++ A } : TaskQueue).microTaskQueue[A.length])).throws
      = some e := by rw [hgetB]; exact hB
  have hstep := microTry_step_throw env s.microTaskQueueCapacity 1 A.length
    { s with trace := s.trace ++ A } hidx e hthrowB
  rw [hgetB] at hstep
  have hrun : flushMicroTaskQueueTry env s.microTaskQueueCapacity (A.length + 2) 0 s
      = some (.err (callTask env { s with trace := s.trace ++ A } B) e B) := by
    have h2 : A.length + 2 = 2 + A.length := by omega
    rw [h2, hwalk, Nat.zero_add]
    exact hstep
  have hdef : flushMicroTaskQueue hsi env (A.length + 2) s =
      match flushMicroTaskQueueTry env s.microTaskQueueCapacity (A.length + 2) 0 s with
      | none => none
      | some (.ok s1) => some { s1 with microTaskQueue := [] }
      | some (.err s1 e t) =>
        some { onError hsi env s1 e t with microTaskQueue := [] } := rfl
  rw [hrun] at hdef
  set s2 := callTask env { s with trace := s.trace ++ A } B with hs2
  obtain ⟨c1, c2, _, _, _, _⟩ := callTask_proj env { s with trace := s.trace ++ A } B
  have hs2trace : s2.trace = s.trace ++ (A ++ [B]) := by
    rw [hs2, c1]
    show (s.trace ++ A) ++ [B] = _
    simp
  have hs2req : s2.requestFlushMicroTaskQueueCalls = s.requestFlushMicroTaskQueueCalls :=
    callTask_microCalls env { s with trace := s.trace ++ A } B hne
  have hs2ne : s2.microTaskQueue ≠ [] := by
    rw [hs2, c2]
    show s.microTaskQueue ++ _ ≠ []
    simp [hne]
  refine ⟨{ onError hsi env s2 e B with microTaskQueue := [] }, hdef, ?_, rfl, ?_, ?_⟩
  · obtain ⟨o1, _, _, _, _⟩ := onError_proj hsi env s2 e B
    have hdelta : ({ onError hsi env s2 e B with microTaskQueue := [] }
        : TaskQueue).trace.drop s.trace.length = A ++ [B] := by
      show (onError hsi env s2 e B).trace.drop s.trace.length = A ++ [B]
      rw [o1, hs2trace]
      exact List.drop_left s.trace (A ++ [B])
    rw [hdelta]
    simp only [List.mem_append, List.mem_singleton]
    rintro (h | h)
    · exact hEA h
    · exact hEB h
  · show (onError hsi env s2 e B).requestFlushMicroTaskQueueCalls = _
    unfold onError
    rw [hOE]
    simp only [if_true]
    rw [foldl_queueMicroTask_calls_of_ne_nil _ _ (by simpa using hs2ne)]
    exact hs2req
  · intro f
    have hdone : flushMicroTaskQueueTry env
        ({ onError hsi env s2 e B with microTaskQueue := [] } : TaskQueue).microTaskQueueCapacity
        (f + 1) 0 { onError hsi env s2 e B with microTaskQueue := [] }
        = some (.ok { onError hsi env s2 e B with microTaskQueue := [] }) :=
      microTry_done _ _ _ _ _ (by simp)
    have hdef2 : flushMicroTaskQueue hsi env (f + 1)
        { onError hsi env s2 e B with microTaskQueue := [] } =
        match flushMicroTaskQueueTry env
          ({ onError hsi env s2 e B with microTaskQueue := [] }
            : TaskQueue).microTaskQueueCapacity
          (f + 1) 0 { onError hsi env s2 e B with microTaskQueue := [] } with
        | none => none
        | some (.ok s1) => some { s1 with microTaskQueue := [] }
        | some (.err s1 e t) =>
          some { onError hsi env s1 e t with microTaskQueue := [] } := rfl
    rw [hdone] at hdef2
    exact hdef2

/-- Witness for C10: a single micro task `0` that throws error 7 and whose
handler enqueues task `1`: the drain completes, task `1` is not invoked,
the queue ends empty with no flush request armed, and a further drain is a
no-op — task `1` is lost. -/
theorem c10_handler_requeue_lost_witness :
    ∃ s', flushMicroTaskQueue true envHandlerRequeue (([] : List Nat).length + 2)
        { TaskQueue.init with microTaskQueue := [0] } = some s' ∧
      1 ∉ s'.trace.drop
        ({ TaskQueue.init with microTaskQueue := [0] } : TaskQueue).trace.length ∧
      s'.microTaskQueue = [] ∧
      s'.requestFlushMicroTaskQueueCalls
        = ({ TaskQueue.init with microTaskQueue := [0] }
            : TaskQueue).requestFlushMicroTaskQueueCalls ∧
      (∀ f : Nat, flushMicroTaskQueue true envHandlerRequeue (f + 1) s' = some s') :=
  c10_handler_requeue_lost true envHandlerRequeue
    { TaskQueue.init with microTaskQueue := [0] } [] 0 1 7
    rfl (by simp) (by simp) (by simp [envHandlerRequeue])
    (by simp [envHandlerRequeue]) (by simp [envHandlerRequeue]) (by simp) (by simp)

/-! ### What the compaction step actually computes -/

theorem shiftLoop_length (index : Nat) : ∀ (n scan : Nat) (q : List Nat),
    (shiftLoop index n scan q).length = q.length := by
  intro n
  induction n with
  | zero => intro scan q; rfl
  | succ n ih =>
    intro scan q
    show (shiftLoop index n (scan + 1) _).length = _
    rw [ih]
    simp

theorem shiftLoop_getElem? (index : Nat) : ∀ (n scan : Nat) (q : List Nat),
    scan + n ≤ index → scan + n ≤ q.length → ∀ j : Nat,
    (shiftLoop index n scan q)[j]?
      = if scan ≤ j ∧ j < scan + n then some (q.getD (j + index) 0) else q[j]? := by
  intro n
  induction n with
  | zero =>
    intro scan q _ _ j
    have h0 : ¬ (scan ≤ j ∧ j < scan + 0) := by omega
    rw [if_neg h0]
    rfl
  | succ n ih =>
    intro scan q hin hlen j
    show (shiftLoop index n (scan + 1) (q.set scan (q.getD (scan + index) 0)))[j]? = _
    rw [ih (scan + 1) _ (by omega) (by simp; omega) j]
    by_cases hj1 : scan + 1 ≤ j ∧ j < scan + 1 + n
    · rw [if_pos hj1, if_pos (by omega)]
      have hne : scan ≠ j + index := by omega
      simp only [List.getD_eq_getElem?_getD, List.getElem?_set_ne hne]
    · rw [if_neg hj1]
      by_cases hj2 : j = scan
      · subst hj2
        rw [if_pos (by omega)]
        have hjlt : j < q.length := by omega
        rw [List.getElem?_set_self hjlt]
      · rw [if_neg (by omega)]
        have hne : scan ≠ j := by omega
        rw [List.getElem?_set_ne hne]

theorem compact_length (q : List Nat) (i : Nat) :
    (compact q i).length = q.length - i := by
  simp only [compact, List.length_take, shiftLoop_length]
  omega

/-- What one compaction step leaves in the queue: the first
`min index (length - index)` slots receive the entries at positions
`index, …, 2·index - 1`, but — because the scan loop runs only `index`
times — any entries at positions `≥ 2·index` are NOT moved: positions
`index, …, length - index - 1` keep their old (already-executed-range)
values.  The upstream library shifts the whole unexecuted suffix; this
code does not. -/
theorem compact_eq (q : List Nat) (i : Nat) (hi : i ≤ q.length) :
    compact q i = (q.drop i).take i ++ (q.drop i).take (q.length - 2 * i) := by
  have hL := shiftLoop_getElem? i i 0 q (by omega) (by omega)
  apply List.ext_getElem?
  intro j
  show ((shiftLoop i i 0 q).take (q.length - i))[j]? = _
  by_cases h1 : j < q.length - i
  · by_cases h2 : j < i
    · have hji : j + i < q.length := by omega
      have lhs : ((shiftLoop i i 0 q).take (q.length - i))[j]? = some q[j + i] := by
        rw [List.getElem?_take, if_pos h1, hL j, if_pos ⟨by omega, by omega⟩,
          List.getD_eq_getElem?_getD, List.getElem?_eq_getElem hji]
        rfl
      have rhs : ((q.drop i).take i ++ (q.drop i).take (q.length - 2 * i))[j]?
          = some q[j + i] := by
        rw [List.getElem?_append_left (by simp; omega), List.getElem?_take, if_pos h2,
          List.getElem?_drop, Nat.add_comm i j, List.getElem?_eq_getElem hji]
      rw [lhs, rhs]
    · have hc1len : ((q.drop i).take i).length = i := by simp; omega
      have lhs : ((shiftLoop i i 0 q).take (q.length - i))[j]? = q[j]? := by
        rw [List.getElem?_take, if_pos h1, hL j, if_neg (by omega)]
      have rhs : ((q.drop i).take i ++ (q.drop i).take (q.length - 2 * i))[j]? = q[j]? := by
        rw [List.getElem?_append_right (by rw [hc1len]; omega), hc1len, List.getElem?_take,
          if_pos (by omega), List.getElem?_drop]
        rw [show i + (j - i) = j by omega]
      rw [lhs, rhs]
  · have lhs : ((shiftLoop i i 0 q).take (q.length - i))[j]? = none := by
      rw [List.getElem?_take, if_neg h1]
    have rhs : ((q.drop i).take i ++ (q.drop i).take (q.length - 2 * i))[j]? = none :=
      List.getElem?_eq_none (by simp; omega)
    rw [lhs, rhs]

theorem mem_compact {q : List Nat} {i : Nat} (hi : i ≤ q.length) {x : Nat}
    (hx : x ∈ compact q i) : x ∈ q := by
  rw [compact_eq q i hi] at hx
  rcases List.mem_append.1 hx with h | h
  · exact List.drop_subset i q (List.take_subset _ _ h)
  · exact List.drop_subset i q (List.take_subset _ _ h)

theorem pureTrace_of_le {c : Nat} {q : List Nat} (h : q.length ≤ c + 1) :
    pureTrace c q = q := by
  rw [pureTrace, if_pos h]

theorem pureTrace_of_gt {c : Nat} {q : List Nat} (h : ¬ q.length ≤ c + 1) :
    pureTrace c q = q.take (c + 1) ++ pureTrace c (compact q (c + 1)) := by
  conv_lhs => rw [pureTrace]
  rw [if_neg h]

/-- A completed micro drain over a queue of pure tasks invokes exactly
`pureTrace c q` (and touches nothing else but the queue). -/
theorem microTry_pure_ok (env : Env) (c : Nat) : ∀ (N : Nat) (q : List Nat) (s : TaskQueue),
    q.length ≤ N → s.microTaskQueue = q → (∀ t ∈ q, PureTask env t) →
    ∃ (q2 : List Nat) (F : Nat), ∀ f : Nat,
      flushMicroTaskQueueTry env c (f + F) 0 s
        = some (.ok { s with trace := s.trace ++ pureTrace c q, microTaskQueue := q2 }) := by
  intro N
  induction N with
  | zero =>
    intro q s hN hq hpure
    have hqnil : q = [] := List.eq_nil_of_length_eq_zero (by omega)
    subst hqnil
    refine ⟨s.microTaskQueue, 1, fun f => ?_⟩
    rw [microTry_done env c f 0 s (by simp [hq]), pureTrace_of_le (by simp),
      List.append_nil]
  | succ N ih =>
    intro q s hN hq hpure
    by_cases hle : q.length ≤ c
    · refine ⟨q, q.length + 1, fun f => ?_⟩
      have hwalk := microTry_pure_steps env c q [] (f + 1) 0 s
        (by rw [hq]; simp) hpure (by omega)
      have harr : f + (q.length + 1) = (f + 1) + q.length := by omega
      rw [harr, hwalk, Nat.zero_add,
        microTry_done env c f q.length _ (by show s.microTaskQueue.length ≤ q.length; rw [hq]),
        pureTrace_of_le (by omega)]
      rw [← hq]
    · have hc1 : c < q.length := by omega
      have hqlast : q[c] ∈ q := List.getElem_mem hc1
      have hlentake : (q.take c).length = c := by simp; omega
      have hcomplen : (compact q (c + 1)).length ≤ N := by
        rw [compact_length]
        omega
      obtain ⟨q2, F2, hIH⟩ := ih (compact q (c + 1))
        { s with
          trace := (s.trace ++ q.take c) ++ [q[c]],
          microTaskQueue := compact s.microTaskQueue (c + 1) }
        hcomplen (by rw [hq]) (fun t ht => hpure t (mem_compact (by omega) ht))
      refine ⟨q2, F2 + (c + 1), fun f => ?_⟩
      have harr : f + (F2 + (c + 1)) = ((f + F2 + 1) + c) := by omega
      have hwalk := microTry_pure_steps env c (q.take c) (q.drop c) (f + F2 + 1) 0 s
        (by rw [hq]; simp) (fun a ha => hpure a (List.take_subset _ _ ha)) (by omega)
      rw [Nat.zero_add, hlentake] at hwalk
      have hidx : c < ({ s with trace := s.trace ++ q.take c }
          : TaskQueue).microTaskQueue.length := by
        show c < s.microTaskQueue.length
        rw [hq]
        omega
      have hget : ({ s with trace := s.trace ++ q.take c }
          : TaskQueue).microTaskQueue[c] = q[c] := by
        have hq2 : ({ s with trace := s.trace ++ q.take c } : TaskQueue).microTaskQueue
            = q := hq
        rw [List.getElem_of_eq hq2]
      have hstep := microTry_step_cap env c (f + F2) c
        { s with trace := s.trace ++ q.take c } hidx
        (by rw [hget]; exact (hpure _ hqlast).2.2) (by omega)
      rw [hget, callTask_pure _ (hpure _ hqlast)] at hstep
      have hstep2 : flushMicroTaskQueueTry env c (f + F2 + 1) c
            { s with trace := s.trace ++ q.take c }
          = flushMicroTaskQueueTry env c (f + F2) 0
            { s with
              trace := (s.trace ++ q.take c) ++ [q[c]],
              microTaskQueue := compact s.microTaskQueue (c + 1) } := hstep
      have htake : q.take c ++ [q[c]] = q.take (c + 1) := by
        rw [List.take_succ, List.getElem?_eq_getElem hc1]
        rfl
      have hpt : pureTrace c q = q.take (c + 1) ++ pureTrace c (compact q (c + 1)) := by
        by_cases heq : q.length ≤ c + 1
        · have hcompnil : compact q (c + 1) = [] :=
            List.eq_nil_of_length_eq_zero (by rw [compact_length]; omega)
          rw [pureTrace_of_le heq, hcompnil, pureTrace_of_le (by simp),
            List.append_nil, List.take_of_length_le (by omega)]
        · exact pureTrace_of_gt heq
      have htrace : ((s.trace ++ q.take c) ++ [q[c]]) ++ pureTrace c (compact q (c + 1))
          = s.trace ++ pureTrace c q := by
        rw [hpt, ← htake]
        simp [List.append_assoc]
      have hstate : ({ s with
            trace := ((s.trace ++ q.take c) ++ [q[c]]) ++ pureTrace c (compact q (c + 1)),
            microTaskQueue := q2 } : TaskQueue)
          = { s with trace := s.trace ++ pureTrace c q, microTaskQueue := q2 } := by
        rw [htrace]
      rw [harr, hwalk, hstep2, hIH f]
      exact congrArg (fun st => some (FlushOutcome.ok st)) hstate

/-- A whole `flushMicroTaskQueue` call over a queue of pure tasks: given
enough fuel it returns, having invoked exactly `pureTrace capacity queue`
and truncated the queue. -/
theorem flushMicroTaskQueue_pure (hsi : Bool) (env : Env) (s : TaskQueue)
    (hpure : ∀ t ∈ s.microTaskQueue, PureTask env t) :
    ∃ F : Nat, ∀ f : Nat,
      flushMicroTaskQueue hsi env (f + F) s
        = some { s with
            trace := s.trace ++ pureTrace s.microTaskQueueCapacity s.microTaskQueue,
            microTaskQueue := [] } := by
  obtain ⟨q2, F, hF⟩ := microTry_pure_ok env s.microTaskQueueCapacity
    s.microTaskQueue.length s.microTaskQueue s (Nat.le_refl _) rfl hpure
  refine ⟨F, fun f => ?_⟩
  have hdef : flushMicroTaskQueue hsi env (f + F) s =
      match flushMicroTaskQueueTry env s.microTaskQueueCapacity (f + F) 0 s with
      | none => none
      | some (.ok s1) => some { s1 with microTaskQueue := [] }
      | some (.err s1 e t) =>
        some { onError hsi env s1 e t with microTaskQueue := [] } := rfl
  rw [hdef, hF f]

/-! ### Arithmetic of ranges, for the concrete large-burst runs -/

theorem range'_take_of_le (a m n : Nat) (h : m ≤ n) :
    (List.range' a n).take m = List.range' a m := by
  have hsplit : List.range' a n = List.range' a m ++ List.range' (a + m) (n - m) := by
    rw [List.range'_append_1, Nat.sub_add_cancel h]
  rw [hsplit]
  exact List.take_left' (by simp)

theorem range'_drop_of_le (a m n : Nat) (h : m ≤ n) :
    (List.range' a n).drop m = List.range' (a + m) (n - m) := by
  have hsplit : List.range' a n = List.range' a m ++ List.range' (a + m) (n - m) := by
    rw [List.range'_append_1, Nat.sub_add_cancel h]
  rw [hsplit]
  exact List.drop_left' (by simp)

/-- First compaction of a 2051-task burst (at `index = 1025`): the loop
copies only 1025 entries, so the tail slot keeps the stale value `1025`
instead of the not-yet-executed task `2050`, which is truncated away. -/
theorem compact_range2051 :
    compact (List.range' 0 2051) 1025 = List.range' 1025 1025 ++ [1025] := by
  rw [compact_eq _ _ (by simp), range'_drop_of_le 0 1025 2051 (by norm_num)]
  norm_num
  rw [range'_take_of_le _ _ _ (by norm_num), range'_take_of_le _ _ _ (by norm_num)]
  norm_num

/-- Second compaction: of the 1026 remaining entries only the stale
`1025` survives. -/
theorem compact_Q1 :
    compact (List.range' 1025 1025 ++ [1025]) 1025 = [1025] := by
  rw [compact_eq _ _ (by simp)]
  rw [List.drop_left' (by simp)]
  norm_num

theorem pureTrace_Q1 :
    pureTrace 1024 (List.range' 1025 1025 ++ [1025])
      = List.range' 1025 1025 ++ [1025] := by
  rw [pureTrace_of_gt (by simp)]
  norm_num
  rw [compact_Q1, pureTrace_of_le (by simp)]

/-- The invocation sequence of a drain of 2051 pure tasks: tasks 0..2049 in
order, then task 1025 a second time; task 2050 is never invoked. -/
theorem pureTrace_2051 :
    pureTrace 1024 (List.range' 0 2051) = List.range' 0 2050 ++ [1025] := by
  rw [pureTrace_of_gt (by simp)]
  norm_num
  rw [range'_take_of_le 0 1025 2051 (by norm_num), compact_range2051, pureTrace_Q1,
    ← List.append_assoc, List.range'_append_1]

theorem microBurst_state (n : Nat) :
    (microBurst n).microTaskQueue = List.range n ∧ (microBurst n).trace = [] ∧
    (microBurst n).microTaskQueueCapacity = 1024 := by
  obtain ⟨h1, _, h3, _, _, h6, _⟩ := foldl_queueMicroTask_fields (List.range n) TaskQueue.init
  exact ⟨by simpa using h1, by simpa using h3, by simpa using h6⟩

theorem pureEnv_pure (t : Nat) : PureTask pureEnv t := ⟨rfl, rfl, rfl⟩

/-- Draining a burst of 2051 no-op micro tasks invokes tasks 0..2049 in
order and then task 1025 a second time; task 2050 is never invoked. -/
theorem microBurst2051_run :
    ∃ (fuel : Nat) (s2 : TaskQueue),
      flushMicroTaskQueue true pureEnv fuel (microBurst 2051) = some s2 ∧
      s2.trace = List.range' 0 2050 ++ [1025] := by
  obtain ⟨hmic, htr, hcap⟩ := microBurst_state 2051
  obtain ⟨F, hF⟩ := flushMicroTaskQueue_pure true pureEnv (microBurst 2051)
    (fun t _ => pureEnv_pure t)
  refine ⟨0 + F, _, hF 0, ?_⟩
  show (microBurst 2051).trace
      ++ pureTrace (microBurst 2051).microTaskQueueCapacity
        (microBurst 2051).microTaskQueue = _
  rw [htr, hcap, hmic, List.range_eq_range', pureTrace_2051, List.nil_append]

/-- C2 evaluated at its failing input: draining a one-burst backlog of 2051
no-op micro tasks (above the 1024 threshold, hitting the compaction twice)
does NOT execute each task exactly once — there are 2051 invocations, but
task 1025 runs twice and task 2050 never runs, because the compaction copy
loop `for (scan = 0; scan < index; …)` moves only `index` entries instead
of the whole unexecuted suffix before `queue.length -= index` truncates
it. -/
theorem c2_compaction_code_bug :
    ∃ (fuel : Nat) (s2 : TaskQueue),
      flushMicroTaskQueue true pureEnv fuel (microBurst 2051) = some s2 ∧
      s2.trace.length = 2051 ∧
      s2.trace.count 1025 = 2 ∧
      2050 ∉ s2.trace := by
  obtain ⟨fuel, s2, hrun, htr⟩ := microBurst2051_run
  refine ⟨fuel, s2, hrun, ?_, ?_, ?_⟩
  · rw [htr]
    simp
  · rw [htr, List.count_append,
      List.count_eq_one_of_mem (List.nodup_range' 0 2050) (by norm_num)]
    simp
  · rw [htr]
    simp only [List.mem_append, List.mem_range'_1, List.mem_singleton]
    omega

/-- C1 evaluated at its failing input: for a burst of 2051 tasks enqueued
on the micro tier via `queueMicroTask` (ids 0..2050, in order), the drain's
invocation sequence is NOT the enqueue order — FIFO is broken by the
compaction copy-loop defect (task 1025 re-runs in place of the dropped
task 2050). -/
theorem c1_micro_fifo_code_bug :
    ∃ (fuel : Nat) (s2 : TaskQueue),
      flushMicroTaskQueue true pureEnv fuel (microBurst 2051) = some s2 ∧
      (microBurst 2051).microTaskQueue = List.range 2051 ∧
      s2.trace ≠ List.range 2051 := by
  obtain ⟨fuel, s2, hrun, htr⟩ := microBurst2051_run
  refine ⟨fuel, s2, hrun, (microBurst_state 2051).1, fun hEq => ?_⟩
  have h2 : (2050 : Nat) ∈ List.range 2051 := by simp
  rw [← hEq, htr] at h2
  simp only [List.mem_append, List.mem_range'_1, List.mem_singleton] at h2
  omega

theorem envReentrantMicroTask_pure {a : Nat} (ha : a ≠ 0) :
    PureTask envReentrantMicroTask a := by
  have h : envReentrantMicroTask a = pureSpec := by
    show (if a = 0 then _ else pureSpec) = pureSpec
    rw [if_neg ha]
  exact ⟨by rw [h]; rfl, by rw [h]; rfl, by rw [h]; rfl⟩

theorem hsplit2050 : List.range' 1 2050 = List.range' 1 1023 ++ List.range' 1024 1027 := by
  have h := List.range'_append_1 1 1023 1027
  norm_num at h
  exact h.symm

/-- The rest of the reentrant-burst drain: from read cursor 1 on a queue
holding tasks 0..2049 plus the reentrantly appended task 2050, with every
task from 1 on pure, the loop invokes 1..1023, then 1024, compacts
(dropping task 2050), and finishes with 1025..2049 and a stale repeat of
1025 — task 2050 is never invoked. -/
theorem tail_run_2051 (env : Env) (s : TaskQueue)
    (hmic : s.microTaskQueue = List.range' 0 2051)
    (hpure : ∀ a ∈ List.range' 1 2050, PureTask env a) :
    ∃ (q2 : List Nat) (F : Nat), ∀ f : Nat,
      flushMicroTaskQueueTry env 1024 (f + F) 1 s
        = some (.ok { s with
            trace := ((s.trace ++ List.range' 1 1023) ++ [1024])
              ++ (List.range' 1025 1025 ++ [1025]),
            microTaskQueue := q2 }) := by
  have hwalkA := fun f2 => microTry_pure_steps env 1024
    (List.range' 1 1023) (List.range' 1024 1027) f2 1 s
    (by
      rw [hmic, range'_drop_of_le 0 1 2051 (by norm_num)]
      norm_num
      exact hsplit2050)
    (fun a ha => hpure a (by simp only [List.mem_range'_1] at ha ⊢; omega))
    (by simp)
  simp only [List.length_range'] at hwalkA
  norm_num at hwalkA
  have hidx : 1024 < ({ s with trace := s.trace ++ List.range' 1 1023 }
      : TaskQueue).microTaskQueue.length := by
    show 1024 < s.microTaskQueue.length
    rw [hmic]
    simp
  have hmict : ({ s with trace := s.trace ++ List.range' 1 1023 }
      : TaskQueue).microTaskQueue = List.range' 0 2051 := hmic
  have hget : ({ s with trace := s.trace ++ List.range' 1 1023 }
      : TaskQueue).microTaskQueue[1024] = 1024 := by
    rw [List.getElem_of_eq hmict]
    simp
  have hm1024 : (1024 : Nat) ∈ List.range' 1 2050 := by
    simp only [List.mem_range'_1]
    omega
  have hp1024 : PureTask env 1024 := hpure 1024 hm1024
  have hcompmic : compact s.microTaskQueue 1025 = List.range' 1025 1025 ++ [1025] := by
    rw [hmic, compact_range2051]
  obtain ⟨q2, F, hB⟩ := microTry_pure_ok env 1024 1026
    (List.range' 1025 1025 ++ [1025])
    { s with
      trace := (s.trace ++ List.range' 1 1023) ++ [1024],
      microTaskQueue := compact s.microTaskQueue 1025 }
    (by norm_num) hcompmic
    (fun t ht => by
      refine hpure t ?_
      simp only [List.mem_append, List.mem_range'_1, List.mem_singleton] at ht
      simp only [List.mem_range'_1]
      omega)
  refine ⟨q2, F + 1024, fun f => ?_⟩
  have harr : f + (F + 1024) = ((f + F + 1) + 1023) := by omega
  rw [harr, hwalkA (f + F + 1)]
  have hstep := microTry_step_cap env 1024 (f + F) 1024
    { s with trace := s.trace ++ List.range' 1 1023 } hidx
    (by rw [hget]; exact hp1024.2.2) (by omega)
  rw [hget, callTask_pure _ hp1024] at hstep
  have hstep2 : flushMicroTaskQueueTry env 1024 (f + F + 1) 1024
        { s with trace := s.trace ++ List.range' 1 1023 }
      = flushMicroTaskQueueTry env 1024 (f + F) 0
        { s with
          trace := (s.trace ++ List.range' 1 1023) ++ [1024],
          microTaskQueue := compact s.microTaskQueue 1025 } := hstep
  rw [hstep2, hB f]
  have hpt := pureTrace_Q1
  exact congrArg (fun tr => some (FlushOutcome.ok
    ({ s with
      trace := ((s.trace ++ List.range' 1 1023) ++ [1024]) ++ tr,
      microTaskQueue := q2 } : TaskQueue))) hpt

/-- The whole reentrant-burst drain, for any state holding the 2050-task
backlog at capacity 1024: the drain returns, with invocation sequence
0, 1..1023, 1024, 1025..2049, 1025 — the reentrantly enqueued task 2050
is dropped by the compaction and never invoked. -/
theorem c4_run (s0 : TaskQueue)
    (hmic : s0.microTaskQueue = List.range 2050)
    (hcap : s0.microTaskQueueCapacity = 1024) :
    ∃ (fuel : Nat) (s2 : TaskQueue),
      flushMicroTaskQueue true envReentrantMicroTask fuel s0 = some s2 ∧
      s2.trace = (((s0.trace ++ [0]) ++ List.range' 1 1023) ++ [1024])
        ++ (List.range' 1025 1025 ++ [1025]) := by
  have hne0 : s0.microTaskQueue ≠ [] := by rw [hmic]; simp
  have hidx0 : 0 < s0.microTaskQueue.length := by rw [hmic]; simp
  have hget0 : s0.microTaskQueue[0] = 0 := by
    rw [List.getElem_of_eq hmic]
    simp
  have hcall : callTask envReentrantMicroTask s0 0
      = TaskQueue.queueMicroTask { s0 with trace := s0.trace ++ [0] } 2050 := rfl
  have hcall2 : callTask envReentrantMicroTask s0 0
      = { s0 with
          trace := s0.trace ++ [0],
          microTaskQueue := s0.microTaskQueue ++ [2050] } :=
    hcall.trans (queueMicroTask_of_ne_nil 2050
      (show ({ s0 with trace := s0.trace ++ [0] } : TaskQueue).microTaskQueue ≠ []
        from hne0))
  have hstep1 : ∀ f2 : Nat,
      flushMicroTaskQueueTry envReentrantMicroTask 1024 (f2 + 1) 0 s0
        = flushMicroTaskQueueTry envReentrantMicroTask 1024 f2 1
            { s0 with
              trace := s0.trace ++ [0],
              microTaskQueue := s0.microTaskQueue ++ [2050] } := by
    intro f2
    rw [microTry_step_nocap envReentrantMicroTask 1024 f2 0 s0 hidx0
      (by rw [hget0]; rfl) (by omega)]
    rw [hget0, hcall2]
  have hs1mic : ({ s0 with
        trace := s0.trace ++ [0],
        microTaskQueue := s0.microTaskQueue ++ [2050] }
      : TaskQueue).microTaskQueue = List.range' 0 2051 := by
    show s0.microTaskQueue ++ [2050] = _
    rw [hmic, ← List.range_succ]
    exact List.range_eq_range' 2051
  obtain ⟨q2, F, hB⟩ := tail_run_2051 envReentrantMicroTask _ hs1mic
    (fun a ha =>
      envReentrantMicroTask_pure (by simp only [List.mem_range'_1] at ha; omega))
  have hrun : ∀ f : Nat,
      flushMicroTaskQueueTry envReentrantMicroTask 1024 (f + (F + 1)) 0 s0
        = some (.ok { { s0 with
              trace := s0.trace ++ [0],
              microTaskQueue := s0.microTaskQueue ++ [2050] } with
            trace := (((({ s0 with
                trace := s0.trace ++ [0],
                microTaskQueue := s0.microTaskQueue ++ [2050] }
              : TaskQueue).trace ++ List.range' 1 1023) ++ [1024])
              ++ (List.range' 1025 1025 ++ [1025])),
            microTaskQueue := q2 }) := by
    intro f
    rw [show f + (F + 1) = (f + F) + 1 by omega, hstep1 (f + F), hB f]
  have hdef : flushMicroTaskQueue true envReentrantMicroTask (0 + (F + 1)) s0 =
      match flushMicroTaskQueueTry envReentrantMicroTask
        s0.microTaskQueueCapacity (0 + (F + 1)) 0 s0 with
      | none => none
      | some (.ok s1) => some { s1 with microTaskQueue := [] }
      | some (.err s1 e t) =>
        some { onError true envReentrantMicroTask s1 e t with microTaskQueue := [] } := rfl
  rw [hcap, hrun 0] at hdef
  exact ⟨0 + (F + 1), _, hdef, rfl⟩

/-- C4 evaluated at its failing input: 2050 tasks are enqueued before the
drain and task 0, while running inside `flushMicroTaskQueue`, enqueues the
fresh task 2050 via `queueMicroTask`; no task throws, and the drain
returns — yet task 2050 is never invoked before it returns (the compaction
copy-loop defect drops it), contradicting same-cycle execution of
micro-tier reentrant enqueues. -/
theorem c4_micro_reentrancy_code_bug :
    ∃ (fuel : Nat) (s2 : TaskQueue),
      flushMicroTaskQueue true envReentrantMicroTask fuel (microBurst 2050) = some s2 ∧
      (envReentrantMicroTask 0).queuesMicroTask = [2050] ∧
      (∀ t : Nat, (envReentrantMicroTask t).throws = none) ∧
      0 ∈ s2.trace ∧
      2050 ∉ s2.trace := by
  obtain ⟨hmic, htr, hcap⟩ := microBurst_state 2050
  obtain ⟨fuel, s2, hrun, htr2⟩ := c4_run (microBurst 2050) hmic hcap
  have hthrows : ∀ t : Nat, (envReentrantMicroTask t).throws = none := by
    intro t
    by_cases h : t = 0
    · rw [h]
      rfl
    · show (if t = 0 then _ else pureSpec).throws = none
      rw [if_neg h]
      rfl
  refine ⟨fuel, s2, hrun, rfl, hthrows, ?_, ?_⟩
  · rw [htr2, htr]
    simp
  · rw [htr2, htr]
    simp only [List.mem_append, List.mem_range'_1, List.mem_singleton, List.nil_append,
      List.mem_cons, List.not_mem_nil, or_false]
    omega
